import Mathlib

/-!
Verification of the DailyArxivPaper ingestion pipeline.

This file gives a shallow embedding of the repository's ingestion code:

- the per-record upsert path (insert_paper_data in period_fetcher.py / fetcher.py),
- its transactional behaviour (commit / rollback on a psycopg2 connection),
- the category fetch loop with HTTP retry (fetch_papers_by_category_to_db),
- the daily tier scheduler (fetch_daily_papers_to_db),
- the batched JSON import path (db_tools/import_arxiv.py),
- the JSON fetch variant with retry-via-recursion (test/dailyarxivfetcher.py),

and proves the spec's testable properties about these definitions.

Database tables are modelled as association lists in insertion order; SQL
ON CONFLICT clauses become explicit key lookups.  Python's None for string
fields is modelled as the empty string (both are falsy in the guards this
code uses), except where a column is never written by a code path, where
Option String records the absence.  Python str.split with a one-character
separator and str.replace of a one-character pattern are modelled
character-by-character on String.data.
-/

/-- Python s.split(sep) for a one-character separator: splits a character
list at every occurrence of sep; the empty input yields one empty field. -/
def split_char (sep : Char) : List Char → List (List Char)
  | [] => [[]]
  | c :: rest =>
      let r := split_char sep rest
      if c = sep then [] :: r
      else
        match r with
        | [] => [[c]]
        | g :: gs => (c :: g) :: gs

/-- Python s.split(sep)[-1]: the final segment of s when split at sep. -/
def last_segment (sep : Char) (s : String) : String :=
  ⟨(split_char sep s.data).getLastD s.data⟩

/-- Python s.replace(a, b) for one-character a and b. -/
def replace_char (a b : Char) (s : String) : String :=
  ⟨s.data.map (fun ch => if ch = a then b else ch)⟩

/-- A normalized arXiv record as consumed by the per-record upsert path:
the fields of an arxiv.Result that insert_paper_data (period_fetcher.py
lines 49-190) reads.  None-able string fields are modelled as String with
the empty string standing for None. -/
structure PaperResult where
  entry_id : String
  title : String
  summary : String
  primary_category : String
  pdf_url : String
  published : String
  updated : String
  journal_ref : String
  doi : String
  authors : List String
  categories : List String
deriving DecidableEq

/-- A row of the papers table.  summary_ai / detailed_review_ai are the two
derived columns that the per-record path never writes (its INSERT omits
them, so they default to NULL = none). -/
structure PaperRow where
  id : String
  title : String
  abstract : String
  primary_category_code : String
  pdf_url : String
  arxiv_published_at : String
  arxiv_updated_at : String
  summary_ai : Option String
  detailed_review_ai : Option String
  journal_ref : String
  doi : String
deriving DecidableEq

/-- A row of the authors table (author_id is the store-assigned surrogate key). -/
structure AuthorRow where
  author_id : Nat
  name : String
deriving DecidableEq

/-- A row of the paper_authors relationship table. -/
structure PaperAuthorRow where
  paper_id : String
  author_id : Nat
  author_order : Nat
deriving DecidableEq

/-- A row of the categories_meta table. -/
structure CategoryRow where
  category_code : String
  description : String
deriving DecidableEq

/-- A row of the paper_categories relationship table. -/
structure PaperCategoryRow where
  paper_id : String
  category_code : String
deriving DecidableEq

/-- The relational store: the five tables of the schema, in insertion order,
plus the sequence backing authors.author_id. -/
structure DB where
  papers : List PaperRow
  authors : List AuthorRow
  categories_meta : List CategoryRow
  paper_authors : List PaperAuthorRow
  paper_categories : List PaperCategoryRow
  next_author_id : Nat
deriving DecidableEq

/-- The empty store (sequence starts at 1, as a fresh Postgres serial does). -/
def DB.empty : DB := ⟨[], [], [], [], [], 1⟩

/-- The synthesized category description
"Category - " + (cat_code.split('.')[-1] if '.' in cat_code else cat_code). -/
def category_desc (cat_code : String) : String :=
  "Category - " ++ (if cat_code.data.contains '.' then last_segment '.' cat_code else cat_code)

/-- INSERT INTO categories_meta ... ON CONFLICT (category_code) DO NOTHING. -/
def insert_category_meta (db : DB) (code desc : String) : DB :=
  if db.categories_meta.any (fun r => r.category_code == code) then db
  else { db with categories_meta := db.categories_meta ++ [⟨code, desc⟩] }

/-- The papers row built from a record on a conflict-free insert
(period_fetcher.py lines 81-109); the two AI columns default to NULL. -/
def paper_row_of (pid : String) (p : PaperResult) : PaperRow :=
  ⟨pid, p.title, replace_char '\n' ' ' p.summary, p.primary_category, p.pdf_url,
   p.published, p.updated, none, none, p.journal_ref, p.doi⟩

/-- The ON CONFLICT (id) DO UPDATE SET ... clause: overwrite the eight
mutable bibliographic columns with the incoming (EXCLUDED) values. -/
def update_paper_row (p : PaperResult) (r : PaperRow) : PaperRow :=
  { r with
    title := p.title
    abstract := replace_char '\n' ' ' p.summary
    primary_category_code := p.primary_category
    pdf_url := p.pdf_url
    arxiv_published_at := p.published
    arxiv_updated_at := p.updated
    journal_ref := p.journal_ref
    doi := p.doi }

/-- INSERT INTO papers ... ON CONFLICT (id) DO UPDATE SET <bibliographic fields>. -/
def upsert_paper (db : DB) (pid : String) (p : PaperResult) : DB :=
  if db.papers.any (fun r => r.id == pid) then
    { db with papers := db.papers.map (fun r => if r.id == pid then update_paper_row p r else r) }
  else
    { db with papers := db.papers ++ [paper_row_of pid p] }

/-- INSERT INTO authors (name) VALUES (%s) ON CONFLICT (name) DO UPDATE SET
name = EXCLUDED.name RETURNING author_id: a no-op update used to obtain the
author_id of an existing name, or a fresh insert drawing from the sequence. -/
def upsert_author (db : DB) (name : String) : DB × Nat :=
  match db.authors.find? (fun a => a.name == name) with
  | some a => (db, a.author_id)
  | none =>
      ({ db with
          authors := db.authors ++ [⟨db.next_author_id, name⟩]
          next_author_id := db.next_author_id + 1 },
       db.next_author_id)

/-- The author loop of insert_paper_data (lines 111-133): upsert each author
by name, collecting (paper_id, author_id, author_order) with author_order
the 1-based enumeration index. -/
def collect_authors (pid : String) : DB → List String → Nat → DB × List PaperAuthorRow
  | db, [], _ => (db, [])
  | db, name :: rest, i =>
      let r := upsert_author db name
      let rest_r := collect_authors pid r.1 rest (i + 1)
      (rest_r.1, ⟨pid, r.2, i + 1⟩ :: rest_r.2)

/-- The composite key of a paper_authors row: the (paper_id, author_id)
primary key the ON CONFLICT clauses target. -/
def pa_key (r : PaperAuthorRow) : String × Nat := (r.paper_id, r.author_id)

/-- INSERT INTO paper_authors ... ON CONFLICT (paper_id, author_id) DO UPDATE
SET author_order = EXCLUDED.author_order, for one VALUES row. -/
def upsert_paper_author (db : DB) (row : PaperAuthorRow) : DB :=
  if db.paper_authors.any (fun r => pa_key r == pa_key row) then
    { db with paper_authors := db.paper_authors.map (fun r =>
        if pa_key r == pa_key row then { r with author_order := row.author_order } else r) }
  else { db with paper_authors := db.paper_authors ++ [row] }

/-- Step 3 of insert_paper_data: the author loop followed by the
execute_values flush of the collected paper_authors rows (lines 135-145). -/
def insert_authors (db : DB) (pid : String) (names : List String) : DB :=
  let r := collect_authors pid db names 0
  r.2.foldl upsert_paper_author r.1

/-- INSERT INTO paper_categories ... ON CONFLICT (paper_id, category_code)
DO NOTHING, for one VALUES row. -/
def insert_paper_category (db : DB) (pid code : String) : DB :=
  if db.paper_categories.any (fun r => r.paper_id == pid && r.category_code == code) then db
  else { db with paper_categories := db.paper_categories ++ [⟨pid, code⟩] }

/-- Step 4 of insert_paper_data (lines 147-180): for the non-empty category
codes, first ensure all categories_meta rows exist, then insert the
paper_categories relations insert-or-ignore. -/
def insert_categories (db : DB) (pid : String) (codes : List String) : DB :=
  let nonempty := codes.filter (fun c => c != "")
  let db1 := nonempty.foldl (fun d c => insert_category_meta d c (category_desc c)) db
  nonempty.foldl (fun d c => insert_paper_category d pid c) db1

/-- Step 1 of insert_paper_data (lines 64-78): ensure the primary category
exists in categories_meta, guarded by Python truthiness of the code. -/
def insert_primary_category (db : DB) (p : PaperResult) : DB :=
  if p.primary_category != "" then
    insert_category_meta db p.primary_category (category_desc p.primary_category)
  else db

/-- paper_id = paper_result.entry_id.split("/")[-1] (line 56). -/
def paper_id_of (p : PaperResult) : String := last_segment '/' p.entry_id

/-- The success path of insert_paper_data (period_fetcher.py lines 49-190):
steps 1-4 in source order, on one record. -/
def insert_paper_data (db : DB) (p : PaperResult) : DB :=
  let pid := paper_id_of p
  let db1 := insert_primary_category db p
  let db2 := upsert_paper db1 pid p
  let db3 := insert_authors db2 pid p.authors
  insert_categories db3 pid p.categories

/-! ## The batched JSON import path (db_tools/import_arxiv.py) -/

/-- A raw JSON paper dictionary as read by import_arxiv.py, with field
access via dict.get: none models a missing key.  Only the fields that the
bulk-import path reads are included. -/
structure JsonPaper where
  id : Option String
  title : Option String
  abstract : Option String
  primary_category_code : Option String
  pdf_url : Option String
  arxiv_published_at : Option String
  arxiv_updated_at : Option String
  summary_ai : Option String
  detailed_review_ai : Option String
  journal_ref : Option String
  doi : Option String
  authors : List String
  categories : List String
deriving DecidableEq

/-- The required-field check at the head of the import loop
(import_arxiv.py lines 141-149): a record whose id key is missing or falsy
is skipped with a warning; a missing or falsy title is replaced by the
empty string and the record is kept. -/
def check_required_fields (p : JsonPaper) : Option JsonPaper :=
  if p.id = none ∨ p.id = some "" then none
  else if p.title = none ∨ p.title = some "" then some { p with title := some "" }
  else some p

/-- The records of a batch that survive the required-field check (a skipped
record is a continue in the source loop: the rest of the batch proceeds). -/
def validated_batch (papers : List JsonPaper) : List JsonPaper :=
  papers.filterMap check_required_fields

/-- The papers row the batched import builds for one JSON record
(import_arxiv.py lines 174-194).  Timestamp string parsing
(parse_datetime) is not modelled: the raw optional strings are stored,
with "" for NULL; the stored values play no role in conflict handling. -/
def import_paper_row (p : JsonPaper) : PaperRow :=
  ⟨p.id.getD "", p.title.getD "", p.abstract.getD "", p.primary_category_code.getD "",
   p.pdf_url.getD "", p.arxiv_published_at.getD "", p.arxiv_updated_at.getD "",
   p.summary_ai, p.detailed_review_ai, p.journal_ref.getD "", p.doi.getD ""⟩

/-- INSERT INTO papers ... ON CONFLICT (id) DO NOTHING RETURNING id
(import_arxiv.py lines 174-196); the Bool is whether RETURNING produced a
row, i.e. whether the insert happened. -/
def insert_paper_ignore (db : DB) (row : PaperRow) : DB × Bool :=
  if db.papers.any (fun r => r.id == row.id) then (db, false)
  else ({ db with papers := db.papers ++ [row] }, true)

/-- INSERT INTO paper_authors (paper_id, author_id, author_order) VALUES %s
ON CONFLICT DO NOTHING, for one VALUES row (import_arxiv.py lines 247-252
and 307-312): the conflicting constraint is the (paper_id, author_id)
primary key. -/
def insert_paper_author_ignore (db : DB) (row : PaperAuthorRow) : DB :=
  if db.paper_authors.any (fun r => pa_key r == pa_key row) then db
  else { db with paper_authors := db.paper_authors ++ [row] }

/-- The paper_authors VALUES rows the import accumulates for one paper
(import_arxiv.py lines 295-305): enumerate(authors, 1) preserving the
1-based order, skipping empty names and names with no known author_id in
the name-to-id cache. -/
def import_author_rows (author_id_of : String → Option Nat) (pid : String) :
    List String → Nat → List PaperAuthorRow
  | [], _ => []
  | name :: rest, order =>
      (match (if name = "" then none else author_id_of name) with
       | some aid => [⟨pid, aid, order⟩]
       | none => []) ++ import_author_rows author_id_of pid rest (order + 1)

/-- The execute_values flush of accumulated paper_authors rows
(import_arxiv.py lines 307-312). -/
def import_flush_paper_authors (db : DB) (rows : List PaperAuthorRow) : DB :=
  rows.foldl insert_paper_author_ignore db

/-- The name-to-id cache as preloaded from the authors table
(import_arxiv.py lines 123-125). -/
def author_cache (db : DB) (name : String) : Option Nat :=
  (db.authors.find? (fun a => a.name == name)).map (fun a => a.author_id)

/-! ## Concrete records for the end-to-end scenario -/

/-- First raw record of the end-to-end scenario: fields the scenario does
not fix are left empty. -/
def scenario_record_1 : PaperResult :=
  { entry_id := "2401.00001", title := "A", summary := "", primary_category := "",
    pdf_url := "", published := "", updated := "", journal_ref := "", doi := "",
    authors := ["X", "Y"], categories := ["cs.AI", "cs.LG"] }

/-- Second raw record of the end-to-end scenario: same identifier, revised
title, authors reordered, only cs.AI listed. -/
def scenario_record_2 : PaperResult :=
  { entry_id := "2401.00001", title := "A revised", summary := "", primary_category := "",
    pdf_url := "", published := "", updated := "", journal_ref := "", doi := "",
    authors := ["Y", "X"], categories := ["cs.AI"] }

/-- The store after applying the two scenario records in order to an empty
store through the per-record upsert path. -/
def scenario_final : DB :=
  insert_paper_data (insert_paper_data DB.empty scenario_record_1) scenario_record_2

/-- A one-paper store used to witness the import conflict frame property. -/
def one_paper_db : DB :=
  ⟨[⟨"2401.00001", "A", "abs", "cs.AI", "u", "t1", "t2", none, none, "", ""⟩], [], [], [], [], 1⟩

/-- A JSON record carrying the identifier already present in one_paper_db
but different bibliographic values. -/
def conflicting_json : JsonPaper :=
  ⟨some "2401.00001", some "B", some "other", none, none, none, none, none, none, none, none, [], []⟩

/-- A store holding paper 2401.00001 with authors X (author_id 1, ordinal 1)
and Y (author_id 2, ordinal 2), as left by a prior ingestion. -/
def reorder_db : DB :=
  ⟨[⟨"2401.00001", "A", "", "", "", "", "", none, none, "", ""⟩],
   [⟨1, "X"⟩, ⟨2, "Y"⟩], [], [⟨"2401.00001", 1, 1⟩, ⟨"2401.00001", 2, 2⟩], [], 3⟩

/-- The store after the batched import path re-ingests paper 2401.00001
with its author list reordered to [Y, X]. -/
def reorder_db_after_import : DB :=
  import_flush_paper_authors reorder_db
    (import_author_rows (author_cache reorder_db) "2401.00001" ["Y", "X"] 1)

/-! ## Query construction and the date window (period_fetcher.py lines 199-201) -/

/-- date_query_start = f"{date_str}000000". -/
def date_query_start (date_str : String) : String := date_str ++ "000000"

/-- date_query_end = f"{date_str}235959". -/
def date_query_end (date_str : String) : String := date_str ++ "235959"

/-- query = f"submittedDate:[{date_query_start} TO {date_query_end}] AND cat:{category}". -/
def category_day_query (category date_str : String) : String :=
  "submittedDate:[" ++ date_query_start date_str ++ " TO " ++ date_query_end date_str ++
    "] AND cat:" ++ category

/-- Modelled from the spec: a UTC instant at microsecond precision (a day
index plus seconds and microseconds within the day).  The catalog source
that evaluates the query is an external collaborator, so its timestamps
are modelled from the interface description of spec sections 4.1 and 6. -/
structure Instant where
  day : Nat
  second_of_day : Nat
  microsecond : Nat
deriving DecidableEq

/-- The instant on the absolute microsecond time line. -/
def Instant.abs_micro (t : Instant) : Nat :=
  (t.day * 86400 + t.second_of_day) * 1000000 + t.microsecond

/-- Modelled from the spec: the closed interval the query bounds D000000
and D235959 denote for day D, from the day start instant 00:00:00.000000
to the day end instant 23:59:59.999999 (spec sections 4.1 and 6: the date
window is a closed UTC calendar-day interval between those two instants). -/
def window_matches (day : Nat) (t : Instant) : Bool :=
  decide ((day * 86400) * 1000000 ≤ t.abs_micro) &&
  decide (t.abs_micro ≤ (day * 86400 + 86399) * 1000000 + 999999)

/-! ## The daily tier scheduler (period_fetcher.py lines 265-291) -/

/-- HIGH_VOLUME_CATEGORIES (period_fetcher.py line 28). -/
def HIGH_VOLUME_CATEGORIES : List String := ["cs.AI", "cs.CV", "cs.LG", "cs.CL"]

/-- MEDIUM_VOLUME_CATEGORIES (line 29). -/
def MEDIUM_VOLUME_CATEGORIES : List String :=
  ["cs.CR", "cs.NE", "cs.RO", "cs.IR", "cs.SE", "cs.SI", "cs.HC", "cs.DB"]

/-- LOW_VOLUME_CATEGORIES (lines 30-35). -/
def LOW_VOLUME_CATEGORIES : List String :=
  ["cs.AR", "cs.CC", "cs.CE", "cs.CG", "cs.CY", "cs.DC", "cs.DL", "cs.DM",
   "cs.DS", "cs.ET", "cs.FL", "cs.GL", "cs.GR", "cs.GT", "cs.IT", "cs.LO",
   "cs.MA", "cs.MM", "cs.MS", "cs.NA", "cs.NI", "cs.OH", "cs.OS",
   "cs.PF", "cs.PL", "cs.SC", "cs.SD", "cs.SY"]

/-- One entry of category_processing_order (lines 265-269): the tier's
category list, its label, and the batch_size, max_total and sleep_time
passed for it. -/
structure TierConfig where
  categories : List String
  vol_type : String
  batch_size : Nat
  max_total : Nat
  sleep_time : Nat
deriving DecidableEq

/-- category_processing_order (lines 265-269). -/
def category_processing_order : List TierConfig :=
  [⟨HIGH_VOLUME_CATEGORIES, "HIGH", 50, 500, 5⟩,
   ⟨MEDIUM_VOLUME_CATEGORIES, "MEDIUM", 100, 300, 3⟩,
   ⟨LOW_VOLUME_CATEGORIES, "LOW", 100, 150, 2⟩]

/-- The Python slicing comprehension [categories[i:i+n] for i in
range(0, len(categories), n)] (lines 273 and 275). -/
def slice_groups (cats : List String) (n : Nat) : List (List String) :=
  (List.range ((cats.length + n - 1) / n)).map (fun g => (cats.drop (g * n)).take n)

/-- The grouping of one tier (lines 272-277): MEDIUM by 2, LOW by 5, HIGH
one category at a time. -/
def groups_for (t : TierConfig) : List (List String) :=
  if t.vol_type = "MEDIUM" then slice_groups t.categories 2
  else if t.vol_type = "LOW" then slice_groups t.categories 5
  else t.categories.map (fun c => [c])

/-- An observable step of the daily run: a category fetch carrying the
per-call result cap handed to fetch_papers_by_category_to_db, or a sleep. -/
inductive SchedEvent where
  | fetch (category : String) (max_total : Nat)
  | pause (seconds : Nat)
deriving DecidableEq

/-- The events one tier contributes (lines 279-291): every category of
every group is fetched with the tier's max_total, and each non-empty group
is followed by a sleep of the tier's sleep_time. -/
def tier_events (t : TierConfig) : List SchedEvent :=
  (groups_for t).flatMap (fun g =>
    g.map (fun c => SchedEvent.fetch c t.max_total) ++
      (if g.length > 0 then [SchedEvent.pause t.sleep_time] else []))

/-- The full event sequence of one fetch_daily_papers_to_db run, tiers in
the order of category_processing_order. -/
def daily_schedule : List SchedEvent :=
  category_processing_order.flatMap tier_events

/-! ## The category fetch loop with retry (period_fetcher.py lines 194-249,
identically fetcher.py lines 197-263) -/

/-- The outcome of one attempt of the fetch loop, as decided by the
external API: the materialized results list, an arxiv.HTTPError raised
while materializing, or any other exception. -/
inductive Attempt where
  | ok (papers : List PaperResult)
  | httpError
  | unexpectedError
deriving DecidableEq

/-- What one call of fetch_papers_by_category_to_db did: the store left
behind, the returned inserted count, the number of attempts made against
the API, and the sleeps performed between attempts, in order. -/
structure FetchOutcome where
  db : DB
  inserted : Nat
  attempts : Nat
  sleeps : List Nat
deriving DecidableEq

/-- The while-loop of fetch_papers_by_category_to_db (lines 203-249):
while failures < max_api_call_failures (3), make an attempt; a successful
attempt inserts every record through insert_paper_data and returns (0 when
the API returned no records); an arxiv.HTTPError increments failures and,
when retries remain, sleeps 15 seconds and loops; any other exception
returns the running inserted count at once.  fuel is
max_api_call_failures - failures, and env gives each attempt's outcome;
the pure model has no store failures, so every insert succeeds and a
successful attempt adds the full list length to the count. -/
def fetch_loop (env : Nat → Attempt) (db : DB) (inserted : Nat) (attempt : Nat) :
    Nat → FetchOutcome
  | 0 => ⟨db, inserted, attempt, []⟩
  | fuel + 1 =>
      match env attempt with
      | .ok papers =>
          if papers.length = 0 then ⟨db, 0, attempt + 1, []⟩
          else ⟨papers.foldl insert_paper_data db, inserted + papers.length, attempt + 1, []⟩
      | .httpError =>
          if fuel = 0 then ⟨db, inserted, attempt + 1, []⟩
          else
            let r := fetch_loop env db inserted (attempt + 1) fuel
            ⟨r.db, r.inserted, r.attempts, 15 :: r.sleeps⟩
      | .unexpectedError => ⟨db, inserted, attempt + 1, []⟩

/-- fetch_papers_by_category_to_db for one category: the loop entered with
inserted_count = 0, failures = 0 and max_api_call_failures = 3. -/
def fetch_category (env : Nat → Attempt) (db : DB) : FetchOutcome :=
  fetch_loop env db 0 0 3

/-- One fetch_daily_papers_to_db run (lines 265-291) with the external API
modelled per category: every fetch event of the daily schedule runs the
category fetch loop on the accumulated store and adds its returned count;
pauses only sleep.  The run also records the categories fetched, in
order. -/
def run_daily (envs : String → Nat → Attempt) (db : DB) : DB × Nat × List String :=
  daily_schedule.foldl
    (fun acc ev =>
      match ev with
      | .fetch c _ =>
          let r := fetch_category (envs c) acc.1
          (r.db, acc.2.1 + r.inserted, acc.2.2 ++ [c])
      | .pause _ => acc)
    (db, 0, [])

/-- The category of a fetch event. -/
def fetched_category : SchedEvent → Option String
  | .fetch c _ => some c
  | .pause _ => none

/-! ## The JSON fetch variant with retry-via-recursion
(test/dailyarxivfetcher.py lines 22-120) -/

/-- The call-level outcome of the try body of the JSON variant's
fetch_papers_by_category: the papers it returns, or an exception escaping
after some batches were already collected. -/
inductive JsonAttempt where
  | ok (papers : List String)
  | raises (collected : List String)
deriving DecidableEq

/-- The shrunken result cap the retry recursion passes down
(test/dailyarxivfetcher.py lines 110-114): max(50, max_total // 2) when a
cap is present, 200 when max_total is None. -/
def retry_cap (max_total : Option Nat) : Nat :=
  match max_total with
  | some n => max 50 (n / 2)
  | none => 200

/-- fetch_papers_by_category of the JSON variant, fuel-indexed: each call
makes one attempt (env, indexed by recursion depth).  On an exception the
call's local failures counter moves from 0 to 1, and 1 < max_failures = 3
always holds, so the except branch always recurses with the shrunken cap
and extends the papers collected before the exception with the retry's
result (lines 104-120).  none means the recursion did not complete within
fuel nested calls. -/
def fetch_papers_by_category_json (env : Nat → JsonAttempt) :
    Option Nat → Nat → Nat → Option (List String)
  | _, _, 0 => none
  | max_total, depth, fuel + 1 =>
      match env depth with
      | .ok papers => some papers
      | .raises collected =>
          match fetch_papers_by_category_json env (some (retry_cap max_total)) (depth + 1) fuel with
          | none => none
          | some retried => some (collected ++ retried)

/-! ## The transaction boundary of the per-record apply (period_fetcher.py
lines 62-190, import callers at import_arxiv.py lines 264-269) -/

/-- A psycopg2 connection: the durable committed store and the uncommitted
state the open transaction's cursor sees. -/
structure Conn where
  committed : DB
  pending : DB
deriving DecidableEq

/-- cursor.execute of one statement inside the open transaction: mutates
only the uncommitted state. -/
def Conn.exec (c : Conn) (f : DB → DB) : Conn := ⟨c.committed, f c.pending⟩

/-- conn.commit() (line 181): the transaction's work becomes durable. -/
def Conn.commit_tx (c : Conn) : Conn := ⟨c.pending, c.pending⟩

/-- conn.rollback() (lines 184 and 188): the transaction's work is
discarded and the store reverts to the committed state. -/
def Conn.rollback_tx (c : Conn) : Conn := ⟨c.committed, c.committed⟩

/-- Steps 1-4 of insert_paper_data as the statement sequence executed on
the connection, in source order. -/
def record_steps (p : PaperResult) : List (DB → DB) :=
  [fun d => insert_primary_category d p,
   fun d => upsert_paper d (paper_id_of p) p,
   fun d => insert_authors d (paper_id_of p) p.authors,
   fun d => insert_categories d (paper_id_of p) p.categories]

/-- insert_paper_data with its transaction boundary (lines 62-190): err
says whether, and after how many completed statements, an error is raised
during steps 1-4.  On success the transaction commits and True is
returned; on any error conn.rollback() discards the partially executed
transaction and False is returned. -/
def insert_paper_data_tx (c : Conn) (p : PaperResult) (err : Option Nat) : Conn × Bool :=
  match err with
  | none => (Conn.commit_tx ((record_steps p).foldl Conn.exec c), true)
  | some k => (Conn.rollback_tx (((record_steps p).take k).foldl Conn.exec c), false)

/-- A batch of records applied in order through the per-record path on one
connection, with a per-record error specification (the batched caller
loops insert_paper_data over a materialized record list). -/
def apply_batch (c : Conn) : List (PaperResult × Option Nat) → Conn
  | [] => c
  | r :: rest => apply_batch (insert_paper_data_tx c r.1 r.2).1 rest

/-- The records of a batch whose apply raised no error, in order. -/
def successful_records (batch : List (PaperResult × Option Nat)) : List PaperResult :=
  (batch.filter (fun r => r.2.isNone)).map (fun r => r.1)

/-! ## Generic facts about keyed association-list updates -/

/-! ## Store invariants and frame lemmas for the per-record path -/

/-- The invariants the schema's unique and primary-key constraints keep:
unique paper ids, unique author names, unique author ids all below the
sequence value, and unique composite keys in both relationship tables. -/
def DB.WF (db : DB) : Prop :=
  (db.papers.map PaperRow.id).Nodup ∧
  (db.authors.map AuthorRow.name).Nodup ∧
  (db.authors.map AuthorRow.author_id).Nodup ∧
  (∀ a ∈ db.authors, a.author_id < db.next_author_id) ∧
  (db.paper_authors.map pa_key).Nodup ∧
  (db.paper_categories.map (fun r => (r.paper_id, r.category_code))).Nodup

/-- The stored ordinal of a (paper_id, author_id) pair, through the
composite-key lookup the ON CONFLICT clause targets. -/
def pa_lookup (db : DB) (pid : String) (aid : Nat) : Option Nat :=
  (db.paper_authors.find? (fun r => pa_key r == (pid, aid))).map PaperAuthorRow.author_order

/-- The stored ordinal for (paper, author display name): the author id
reached by unique name, then that pair's author_order. -/
def ordinal_of (db : DB) (pid name : String) : Option Nat :=
  match db.authors.find? (fun a => a.name == name) with
  | some a => pa_lookup db pid a.author_id
  | none => none

/-- The single multi-row execute_values INSERT ... ON CONFLICT
(paper_id, author_id) DO UPDATE flush (period_fetcher.py lines 135-145).
Postgres refuses a VALUES list in which two rows carry the same
constrained key (error 21000, ON CONFLICT DO UPDATE command cannot affect
row a second time), so the statement raises exactly when the collected
rows repeat a composite key; otherwise every row is upserted in order. -/
def flush_paper_authors (db : DB) (rows : List PaperAuthorRow) : Option DB :=
  if (rows.map pa_key).Nodup then some (rows.foldl upsert_paper_author db)
  else none

/-- insert_paper_data including the flush's duplicate-key failure path
(period_fetcher.py lines 62-190): steps 1-2, the author loop, then the
paper_authors flush; if the flush raises, the except branch at lines
183-190 rolls the whole transaction back and returns False, leaving the
store as it was; otherwise step 4 runs and the apply commits with True. -/
def insert_paper_data_checked (db : DB) (p : PaperResult) : DB × Bool :=
  let pid := paper_id_of p
  let db1 := insert_primary_category db p
  let db2 := upsert_paper db1 pid p
  let r := collect_authors pid db2 p.authors 0
  match flush_paper_authors r.1 r.2 with
  | none => (db, false)
  | some db3 => (insert_categories db3 pid p.categories, true)

/-- A record listing the same author name twice: both collected
paper_authors rows carry the same (paper_id, author_id) key, so the
flush's VALUES list affects one row twice. -/
def dup_author_record : PaperResult :=
  { entry_id := "2401.00002", title := "B", summary := "", primary_category := "",
    pdf_url := "", published := "", updated := "", journal_ref := "", doi := "",
    authors := ["X", "X"], categories := [] }

/-! ## Theorems -/

/-- C2: applying the two raw records with identifier 2401.00001 (title "A",
authors [X, Y], categories [cs.AI, cs.LG]; then title "A revised", authors
[Y, X], categories [cs.AI]) in order to an empty store yields exactly one
Paper row (id 2401.00001, title "A revised"), exactly two Author rows (X
and Y), PaperAuthor holding (paper, Y, 1) and (paper, X, 2), and
PaperCategory holding (paper, cs.AI) and (paper, cs.LG): the cs.LG
relation from the first apply persists because paper_categories insertion
is insert-or-ignore and never removes rows. -/
theorem end_to_end_two_record_scenario :
    scenario_final.papers.map (fun r => (r.id, r.title)) = [("2401.00001", "A revised")] ∧
    scenario_final.authors = [⟨1, "X"⟩, ⟨2, "Y"⟩] ∧
    scenario_final.paper_authors =
      [⟨"2401.00001", 1, 2⟩, ⟨"2401.00001", 2, 1⟩] ∧
    scenario_final.paper_categories =
      [⟨"2401.00001", "cs.AI"⟩, ⟨"2401.00001", "cs.LG"⟩] ∧
    (insert_paper_data DB.empty scenario_record_1).paper_categories =
      [⟨"2401.00001", "cs.AI"⟩, ⟨"2401.00001", "cs.LG"⟩] := by
  exact ⟨rfl, rfl, rfl, rfl, rfl⟩

/-- C8: at the import validation boundary, a record whose identifier is
absent or empty is dropped (the rest of the batch is processed exactly as
if the record were not there), while a record with an identifier but an
absent or empty title is kept with its title replaced by the empty string. -/
theorem import_required_field_validation (p q : JsonPaper) (rest : List JsonPaper)
    (hp : p.id = none ∨ p.id = some "")
    (hq1 : ¬(q.id = none ∨ q.id = some ""))
    (hq2 : q.title = none ∨ q.title = some "") :
    validated_batch (p :: rest) = validated_batch rest ∧
    check_required_fields q = some { q with title := some "" } := by
  constructor
  · simp [validated_batch, check_required_fields, hp]
  · simp [check_required_fields, hq1, hq2]

/-- Witness for import_required_field_validation at concrete records: one
with an empty id, one with an id but a missing title. -/
theorem import_required_field_validation_witness :
    ((⟨some "", some "t", none, none, none, none, none, none, none, none, none, [], []⟩ : JsonPaper).id = none ∨
      (⟨some "", some "t", none, none, none, none, none, none, none, none, none, [], []⟩ : JsonPaper).id = some "") ∧
    validated_batch [⟨some "", some "t", none, none, none, none, none, none, none, none, none, [], []⟩] = validated_batch [] ∧
    check_required_fields ⟨some "2401.1", none, none, none, none, none, none, none, none, none, none, [], []⟩ =
      some { (⟨some "2401.1", none, none, none, none, none, none, none, none, none, none, [], []⟩ : JsonPaper) with title := some "" } := by
  refine ⟨Or.inr rfl, ?_, ?_⟩
  · exact (import_required_field_validation _ ⟨some "2401.1", none, none, none, none, none, none, none, none, none, none, [], []⟩ []
      (Or.inr rfl) (by simp) (Or.inl rfl)).1
  · exact (import_required_field_validation ⟨some "", some "t", none, none, none, none, none, none, none, none, none, [], []⟩ _ []
      (Or.inr rfl) (by simp) (Or.inl rfl)).2

/-- C9: in the batched JSON import path, inserting a paper whose identifier
already exists leaves the store exactly unchanged (ON CONFLICT (id) DO
NOTHING, with RETURNING producing no row), and for all inputs every
already-stored papers row survives the insert untouched. -/
theorem import_conflict_do_nothing_frame (db : DB) (p : JsonPaper)
    (h : ∃ r ∈ db.papers, r.id = (import_paper_row p).id) :
    (insert_paper_ignore db (import_paper_row p)).1 = db ∧
    (insert_paper_ignore db (import_paper_row p)).2 = false := by
  obtain ⟨r, hr, hid⟩ := h
  have hany : db.papers.any (fun s => s.id == (import_paper_row p).id) = true := by
    simpa [List.any_eq_true] using ⟨r, hr, by simpa using hid⟩
  constructor <;> simp [insert_paper_ignore, hany]

/-- Witness for import_conflict_do_nothing_frame at a concrete store and record. -/
theorem import_conflict_do_nothing_frame_witness :
    (∃ r ∈ one_paper_db.papers, r.id = (import_paper_row conflicting_json).id) ∧
    (insert_paper_ignore one_paper_db (import_paper_row conflicting_json)).1 = one_paper_db ∧
    (insert_paper_ignore one_paper_db (import_paper_row conflicting_json)).2 = false := by
  have h : ∃ r ∈ one_paper_db.papers, r.id = (import_paper_row conflicting_json).id := by
    refine ⟨⟨"2401.00001", "A", "abs", "cs.AI", "u", "t1", "t2", none, none, "", ""⟩, ?_, rfl⟩
    simp [one_paper_db]
  exact ⟨h, import_conflict_do_nothing_frame one_paper_db conflicting_json h⟩

/-- C4 counterexample: re-ingesting paper 2401.00001 with its authors
reordered to [Y, X] through the batched import path leaves both
paper_authors ordinals unchanged (X keeps 1, Y keeps 2), because its
insert is ON CONFLICT DO NOTHING; in particular Y's row does not receive
its new 1-based position 1, refuting the claim for the batched path. -/
theorem batched_import_keeps_old_ordinal :
    reorder_db_after_import.paper_authors = [⟨"2401.00001", 1, 1⟩, ⟨"2401.00001", 2, 2⟩] ∧
    ¬((reorder_db_after_import.paper_authors.find? (fun r => r.author_id == 2)).map
        (fun r => r.author_order) = some 1) := by
  exact ⟨rfl, by decide⟩

/-- C6: the query the fetch sends filters submissions over the closed
interval from date_str000000 to date_str235959 combined with the category
code (shown structurally for all inputs and at a concrete date), and the
closed day window those bounds denote includes the instant at
00:00:00.000000 of the target day, includes 23:59:59.999999 of the target
day, and excludes 00:00:00.000000 of the following day. -/
theorem date_window_boundaries :
    (∀ category date_str, category_day_query category date_str =
      "submittedDate:[" ++ (date_str ++ "000000") ++ " TO " ++ (date_str ++ "235959") ++
        "] AND cat:" ++ category) ∧
    category_day_query "cs.AI" "20240115" =
      "submittedDate:[20240115000000 TO 20240115235959] AND cat:cs.AI" ∧
    (∀ d : Nat, window_matches d ⟨d, 0, 0⟩ = true) ∧
    (∀ d : Nat, window_matches d ⟨d, 86399, 999999⟩ = true) ∧
    (∀ d : Nat, window_matches d ⟨d + 1, 0, 0⟩ = false) := by
  refine ⟨fun _ _ => rfl, rfl, ?_, ?_, ?_⟩
  · intro d
    simp only [window_matches, Instant.abs_micro, Bool.and_eq_true, decide_eq_true_eq]
    omega
  · intro d
    simp only [window_matches, Instant.abs_micro, Bool.and_eq_true, decide_eq_true_eq]
    omega
  · intro d
    rw [Bool.eq_false_iff]
    simp only [ne_eq, window_matches, Instant.abs_micro, Bool.and_eq_true, decide_eq_true_eq]
    omega

/-- C7: a daily run processes the tiers in the fixed order HIGH, MEDIUM,
LOW, within each tier in declared category order; HIGH categories are
fetched one at a time under cap 500 with a 5-second pause after each
singleton group, MEDIUM in groups of 2 under cap 300 with a 3-second pause
after each pair, and LOW in groups of 5 under cap 150 with a 2-second
pause after each group.  The code-derived schedule equals this literal
event sequence. -/
theorem daily_tier_schedule :
    daily_schedule =
      [.fetch "cs.AI" 500, .pause 5, .fetch "cs.CV" 500, .pause 5,
       .fetch "cs.LG" 500, .pause 5, .fetch "cs.CL" 500, .pause 5,
       .fetch "cs.CR" 300, .fetch "cs.NE" 300, .pause 3,
       .fetch "cs.RO" 300, .fetch "cs.IR" 300, .pause 3,
       .fetch "cs.SE" 300, .fetch "cs.SI" 300, .pause 3,
       .fetch "cs.HC" 300, .fetch "cs.DB" 300, .pause 3,
       .fetch "cs.AR" 150, .fetch "cs.CC" 150, .fetch "cs.CE" 150,
       .fetch "cs.CG" 150, .fetch "cs.CY" 150, .pause 2,
       .fetch "cs.DC" 150, .fetch "cs.DL" 150, .fetch "cs.DM" 150,
       .fetch "cs.DS" 150, .fetch "cs.ET" 150, .pause 2,
       .fetch "cs.FL" 150, .fetch "cs.GL" 150, .fetch "cs.GR" 150,
       .fetch "cs.GT" 150, .fetch "cs.IT" 150, .pause 2,
       .fetch "cs.LO" 150, .fetch "cs.MA" 150, .fetch "cs.MM" 150,
       .fetch "cs.MS" 150, .fetch "cs.NA" 150, .pause 2,
       .fetch "cs.NI" 150, .fetch "cs.OH" 150, .fetch "cs.OS" 150,
       .fetch "cs.PF" 150, .fetch "cs.PL" 150, .pause 2,
       .fetch "cs.SC" 150, .fetch "cs.SD" 150, .fetch "cs.SY" 150, .pause 2] := by
  rfl

/-- The run_daily fold over any event list visits every fetch event's
category, in order, whatever the per-category environments produce. -/
theorem run_daily_visits_all (envs : String → Nat → Attempt) :
    ∀ (evs : List SchedEvent) (db : DB) (n : Nat) (seen : List String),
      (evs.foldl
        (fun acc ev =>
          match ev with
          | .fetch c _ =>
              let r := fetch_category (envs c) acc.1
              (r.db, acc.2.1 + r.inserted, acc.2.2 ++ [c])
          | .pause _ => acc)
        (db, n, seen)).2.2 = seen ++ evs.filterMap fetched_category := by
  intro evs
  induction evs with
  | nil => intro db n seen; simp
  | cons ev rest ih =>
      intro db n seen
      cases ev with
      | fetch c m =>
          simp only [List.foldl_cons, List.filterMap_cons, fetched_category]
          rw [ih]
          simp
      | pause s =>
          simp only [List.foldl_cons, List.filterMap_cons, fetched_category]
          rw [ih]

/-- C5: during one category fetch, a transient HTTP error is retried up to
the fixed bound of 3 attempts with a fixed 15-second sleep between
attempts; after the third consecutive HTTPError the fetch returns the
count of records already inserted (here 0, no attempt having processed
records) without raising; any non-transient error returns that count
immediately after its attempt; and the daily scheduler still visits every
scheduled category, in order, whatever each category's fetch outcomes are. -/
theorem fetch_retry_exhaustion_and_continue
    (env env2 : Nat → Attempt) (db : DB)
    (h0 : env 0 = .httpError) (h1 : env 1 = .httpError) (h2 : env 2 = .httpError)
    (hu : env2 0 = .unexpectedError)
    (envs : String → Nat → Attempt) (db0 : DB) :
    fetch_category env db = ⟨db, 0, 3, [15, 15]⟩ ∧
    fetch_category env2 db = ⟨db, 0, 1, []⟩ ∧
    (run_daily envs db0).2.2 = daily_schedule.filterMap fetched_category := by
  refine ⟨?_, ?_, ?_⟩
  · simp [fetch_category, fetch_loop, h0, h1, h2]
  · simp [fetch_category, fetch_loop, hu]
  · simpa using run_daily_visits_all envs daily_schedule db0 0 []

/-- Witness for fetch_retry_exhaustion_and_continue: the always-HTTPError
and always-unexpected-error environments on the empty store. -/
theorem fetch_retry_exhaustion_and_continue_witness :
    fetch_category (fun _ => Attempt.httpError) DB.empty = ⟨DB.empty, 0, 3, [15, 15]⟩ ∧
    fetch_category (fun _ => Attempt.unexpectedError) DB.empty = ⟨DB.empty, 0, 1, []⟩ ∧
    (run_daily (fun _ _ => Attempt.httpError) DB.empty).2.2 =
      daily_schedule.filterMap fetched_category := by
  exact fetch_retry_exhaustion_and_continue
    (fun _ => Attempt.httpError) (fun _ => Attempt.unexpectedError) DB.empty
    rfl rfl rfl rfl (fun _ _ => Attempt.httpError) DB.empty

/-- C10 (refuting bounded-depth termination): under an environment in
which every attempt raises, the JSON variant's retry recursion never
completes, for every fuel, starting cap and depth — the per-call failures
counter restarts at 0 in each frame and the shrunken cap has the fixed
point 50 (200 and 250 being the first caps from an unbounded or a
500-capped start), so no bound on the recursion depth exists. -/
theorem json_fetch_retry_recursion_unbounded :
    (∀ (fuel : Nat) (max_total : Option Nat) (depth : Nat),
      fetch_papers_by_category_json (fun _ => JsonAttempt.raises []) max_total depth fuel = none) ∧
    retry_cap (some 50) = 50 ∧ retry_cap none = 200 ∧ retry_cap (some 500) = 250 := by
  refine ⟨?_, rfl, rfl, rfl⟩
  intro fuel
  induction fuel with
  | zero => intro m d; rfl
  | succ n ih =>
      intro m d
      simp only [fetch_papers_by_category_json]
      rw [ih (some (retry_cap m)) (d + 1)]

/-- Executing any statement list inside a transaction leaves the committed
store untouched. -/
theorem foldl_exec_spec (fs : List (DB → DB)) :
    ∀ a b : DB, fs.foldl Conn.exec ⟨a, b⟩ = ⟨a, fs.foldl (fun d f => f d) b⟩ := by
  induction fs with
  | nil => intro a b; rfl
  | cons f rest ih => intro a b; exact ih a (f b)

/-- C3: on a quiescent connection, if an error is raised after any number
of completed statements of steps 1-4, the whole transaction for that
record is rolled back and the apply reports failure — the store (committed
and visible state alike) is exactly as before the apply began; a
successful apply commits exactly insert_paper_data and reports success;
and in a batch, the committed store is exactly the successful records
folded in order: records committed before a failing record stay committed,
and a failing record contributes nothing. -/
theorem apply_rollback_isolation (db : DB) (p : PaperResult) (k : Nat)
    (batch : List (PaperResult × Option Nat)) :
    (insert_paper_data_tx ⟨db, db⟩ p (some k)).1 = ⟨db, db⟩ ∧
    (insert_paper_data_tx ⟨db, db⟩ p (some k)).2 = false ∧
    (insert_paper_data_tx ⟨db, db⟩ p none).1 =
      ⟨insert_paper_data db p, insert_paper_data db p⟩ ∧
    (insert_paper_data_tx ⟨db, db⟩ p none).2 = true ∧
    (apply_batch ⟨db, db⟩ batch).committed =
      (successful_records batch).foldl insert_paper_data db := by
  refine ⟨?_, rfl, ?_, rfl, ?_⟩
  · show Conn.rollback_tx (((record_steps p).take k).foldl Conn.exec ⟨db, db⟩) = ⟨db, db⟩
    rw [foldl_exec_spec]
    rfl
  · show Conn.commit_tx ((record_steps p).foldl Conn.exec ⟨db, db⟩) = _
    rw [foldl_exec_spec]
    rfl
  · clear k p
    induction batch generalizing db with
    | nil => rfl
    | cons r rest ih =>
        cases hr : r.2 with
        | none =>
            show (apply_batch (insert_paper_data_tx ⟨db, db⟩ r.1 r.2).1 rest).committed = _
            rw [hr]
            show (apply_batch (Conn.commit_tx ((record_steps r.1).foldl Conn.exec ⟨db, db⟩)) rest).committed = _
            rw [foldl_exec_spec]
            have hc : Conn.commit_tx ⟨db, (record_steps r.1).foldl (fun d f => f d) db⟩ =
                ⟨insert_paper_data db r.1, insert_paper_data db r.1⟩ := rfl
            rw [hc, ih]
            simp [successful_records, hr, Option.isNone]
        | some k2 =>
            show (apply_batch (insert_paper_data_tx ⟨db, db⟩ r.1 r.2).1 rest).committed = _
            rw [hr]
            show (apply_batch (Conn.rollback_tx (((record_steps r.1).take k2).foldl Conn.exec ⟨db, db⟩)) rest).committed = _
            rw [foldl_exec_spec]
            have hc : Conn.rollback_tx (⟨db, ((record_steps r.1).take k2).foldl (fun d f => f d) db⟩ : Conn) =
                ⟨db, db⟩ := rfl
            rw [hc, ih]
            simp [successful_records, hr, Option.isNone]

/-- A pointwise key-preserving map keeps the key column unchanged. -/
theorem keys_map_update {α κ : Type} (kf : α → κ) (f : α → α) (l : List α)
    (hk : ∀ a ∈ l, kf (f a) = kf a) : (l.map f).map kf = l.map kf := by
  rw [List.map_map]
  exact List.map_congr_left hk

/-- Updating every row matching a key commutes with finding that key. -/
theorem find_map_update_self {α κ : Type} [BEq κ] [LawfulBEq κ]
    (kf : α → κ) (key : κ) (upd : α → α) (hk : ∀ r, kf (upd r) = kf r) :
    ∀ l : List α,
      (l.map (fun r => if kf r == key then upd r else r)).find? (fun r => kf r == key) =
        (l.find? (fun r => kf r == key)).map upd := by
  intro l
  induction l with
  | nil => rfl
  | cons a t ih =>
      simp only [List.map_cons]
      by_cases h : (kf a == key) = true
      · have h2 : (kf (upd a) == key) = true := by rw [hk]; exact h
        simp [List.find?_cons, h2, h]
      · have h2 : (kf a == key) = false := Bool.eq_false_iff.mpr h
        simp [List.find?_cons, h2, ih]

/-- Updating every row matching one key leaves lookups of any other key
unchanged. -/
theorem find_map_update_other {α κ : Type} [BEq κ] [LawfulBEq κ]
    (kf : α → κ) (key key2 : κ) (hne : key2 ≠ key) (upd : α → α)
    (hk : ∀ r, kf (upd r) = kf r) :
    ∀ l : List α,
      (l.map (fun r => if kf r == key then upd r else r)).find? (fun r => kf r == key2) =
        l.find? (fun r => kf r == key2) := by
  intro l
  induction l with
  | nil => rfl
  | cons a t ih =>
      simp only [List.map_cons]
      by_cases h : (kf a == key) = true
      · have ha : kf a = key := beq_iff_eq.mp h
        have h2 : (kf a == key2) = false := by
          simp only [beq_eq_false_iff_ne, ne_eq, ha]
          exact fun hh => hne hh.symm
        have h2u : (kf (upd a) == key2) = false := by rw [hk]; exact h2
        simp [List.find?_cons, h, h2u, h2, ih]
      · have hf : (kf a == key) = false := Bool.eq_false_iff.mpr h
        by_cases h2 : (kf a == key2) = true
        · simp [List.find?_cons, hf, h2]
        · have h2f : (kf a == key2) = false := Bool.eq_false_iff.mpr h2
          simp [List.find?_cons, hf, h2f, ih]

/-- With unique keys, updating every row matching a key rewrites exactly
the filtered singleton. -/
theorem filter_map_update {α κ : Type} [BEq κ] [LawfulBEq κ]
    (kf : α → κ) (key : κ) (upd : α → α) (hk : ∀ r, kf (upd r) = kf r) :
    ∀ l : List α, (l.map kf).Nodup →
      (l.map (fun r => if kf r == key then upd r else r)).filter (fun r => kf r == key) =
        (l.filter (fun r => kf r == key)).map upd := by
  intro l
  induction l with
  | nil => intro _; rfl
  | cons a t ih =>
      intro hnd
      rw [List.map_cons, List.nodup_cons] at hnd
      obtain ⟨hka, hndt⟩ := hnd
      simp only [List.map_cons]
      by_cases h : (kf a == key) = true
      · have ha : kf a = key := beq_iff_eq.mp h
        have htail : ∀ r ∈ t, ¬((kf r == key) = true) := by
          intro r hr hkr
          exact hka (by rw [← ha] at hkr; rw [← beq_iff_eq.mp hkr]; exact List.mem_map_of_mem kf hr)
        have hfilt : (t.map (fun r => if kf r == key then upd r else r)).filter
            (fun r => kf r == key) = [] := by
          rw [List.filter_eq_nil_iff]
          intro x hx
          obtain ⟨r, hr, hrx⟩ := List.mem_map.mp hx
          rw [if_neg (htail r hr)] at hrx
          subst hrx
          exact htail r hr
        have hfilt2 : t.filter (fun r => kf r == key) = [] := by
          rw [List.filter_eq_nil_iff]
          exact htail
        have h2 : (kf (upd a) == key) = true := by rw [hk]; exact h
        simp [List.filter_cons, h, h2, hfilt, hfilt2]
      · have hf : (kf a == key) = false := Bool.eq_false_iff.mpr h
        simp [List.filter_cons, hf, ih hndt]

/-- With unique keys, a present key filters to a singleton. -/
theorem filter_singleton_of_nodup {α κ : Type} [BEq κ] [LawfulBEq κ]
    (kf : α → κ) (key : κ) :
    ∀ l : List α, (l.map kf).Nodup → l.any (fun r => kf r == key) = true →
      ∃ r0 ∈ l, kf r0 = key ∧ l.filter (fun r => kf r == key) = [r0] := by
  intro l
  induction l with
  | nil => intro _ h; simp at h
  | cons a t ih =>
      intro hnd hany
      rw [List.map_cons, List.nodup_cons] at hnd
      obtain ⟨hka, hndt⟩ := hnd
      by_cases h : (kf a == key) = true
      · have ha : kf a = key := beq_iff_eq.mp h
        refine ⟨a, List.mem_cons_self a t, ha, ?_⟩
        have hfilt2 : t.filter (fun r => kf r == key) = [] := by
          rw [List.filter_eq_nil_iff]
          intro r hr hkr
          exact hka (by rw [← ha] at hkr; rw [← beq_iff_eq.mp hkr]; exact List.mem_map_of_mem kf hr)
        simp [List.filter_cons, h, hfilt2]
      · have hany2 : t.any (fun r => kf r == key) = true := by
          rcases List.any_eq_true.mp hany with ⟨r, hr, hkr⟩
          rcases List.mem_cons.mp hr with rfl | hrt
          · exact absurd hkr h
          · exact List.any_eq_true.mpr ⟨r, hrt, hkr⟩
        obtain ⟨r0, hr0, hkr0, hfilt⟩ := ih hndt hany2
        have hf : (kf a == key) = false := Bool.eq_false_iff.mpr h
        exact ⟨r0, List.mem_cons_of_mem a hr0, hkr0,
          by simp [List.filter_cons, hf, hfilt]⟩

/-- insert_category_meta touches only categories_meta. -/
theorem insert_category_meta_frame (db : DB) (code desc : String) :
    (insert_category_meta db code desc).papers = db.papers ∧
    (insert_category_meta db code desc).authors = db.authors ∧
    (insert_category_meta db code desc).paper_authors = db.paper_authors ∧
    (insert_category_meta db code desc).paper_categories = db.paper_categories ∧
    (insert_category_meta db code desc).next_author_id = db.next_author_id := by
  unfold insert_category_meta
  split <;> exact ⟨rfl, rfl, rfl, rfl, rfl⟩

/-- Step 1 touches only categories_meta. -/
theorem insert_primary_category_frame (db : DB) (p : PaperResult) :
    (insert_primary_category db p).papers = db.papers ∧
    (insert_primary_category db p).authors = db.authors ∧
    (insert_primary_category db p).paper_authors = db.paper_authors ∧
    (insert_primary_category db p).paper_categories = db.paper_categories ∧
    (insert_primary_category db p).next_author_id = db.next_author_id := by
  unfold insert_primary_category
  split
  · exact insert_category_meta_frame db p.primary_category (category_desc p.primary_category)
  · exact ⟨rfl, rfl, rfl, rfl, rfl⟩

/-- The paper upsert touches only the papers table. -/
theorem upsert_paper_frame (db : DB) (pid : String) (p : PaperResult) :
    (upsert_paper db pid p).authors = db.authors ∧
    (upsert_paper db pid p).categories_meta = db.categories_meta ∧
    (upsert_paper db pid p).paper_authors = db.paper_authors ∧
    (upsert_paper db pid p).paper_categories = db.paper_categories ∧
    (upsert_paper db pid p).next_author_id = db.next_author_id := by
  unfold upsert_paper
  split <;> exact ⟨rfl, rfl, rfl, rfl, rfl⟩

/-- The paper upsert keeps paper ids unique. -/
theorem upsert_paper_nodup (db : DB) (pid : String) (p : PaperResult)
    (h : (db.papers.map PaperRow.id).Nodup) :
    ((upsert_paper db pid p).papers.map PaperRow.id).Nodup := by
  unfold upsert_paper
  split
  · next hany =>
      have heq := keys_map_update PaperRow.id
        (fun r => if r.id == pid then update_paper_row p r else r) db.papers
        (by intro a _; by_cases hc : (a.id == pid) = true <;> simp [hc, update_paper_row])
      show ((db.papers.map _).map PaperRow.id).Nodup
      rw [heq]
      exact h
  · next hany =>
      have hnot : pid ∉ db.papers.map PaperRow.id := by
        intro hmem
        obtain ⟨r, hr, hid⟩ := List.mem_map.mp hmem
        exact hany (List.any_eq_true.mpr ⟨r, hr, beq_iff_eq.mpr hid⟩)
      show ((db.papers ++ [paper_row_of pid p]).map PaperRow.id).Nodup
      rw [List.map_append]
      simp [List.nodup_append, h, paper_row_of, hnot]

/-- After the paper upsert, exactly one papers row carries the record's
identifier, and its bibliographic columns are the record's values. -/
theorem upsert_paper_filter (db : DB) (pid : String) (p : PaperResult)
    (h : (db.papers.map PaperRow.id).Nodup) :
    ∃ r : PaperRow, (upsert_paper db pid p).papers.filter (fun q => q.id == pid) = [r] ∧
      r.id = pid ∧ r.title = p.title ∧ r.abstract = replace_char '\n' ' ' p.summary ∧
      r.primary_category_code = p.primary_category ∧ r.pdf_url = p.pdf_url ∧
      r.arxiv_published_at = p.published ∧ r.arxiv_updated_at = p.updated ∧
      r.journal_ref = p.journal_ref ∧ r.doi = p.doi := by
  unfold upsert_paper
  split
  · next hany =>
      obtain ⟨r0, hr0, hkey, hfilt⟩ := filter_singleton_of_nodup PaperRow.id pid db.papers h hany
      refine ⟨update_paper_row p r0, ?_, hkey, rfl, rfl, rfl, rfl, rfl, rfl, rfl, rfl⟩
      have hmu := filter_map_update PaperRow.id pid (update_paper_row p)
        (fun r => rfl) db.papers h
      show (db.papers.map _).filter _ = _
      rw [hmu, hfilt]
      rfl
  · next hany =>
      refine ⟨paper_row_of pid p, ?_, rfl, rfl, rfl, rfl, rfl, rfl, rfl, rfl, rfl⟩
      have hfilt : db.papers.filter (fun q => q.id == pid) = [] := by
        rw [List.filter_eq_nil_iff]
        intro r hr hkr
        exact hany (List.any_eq_true.mpr ⟨r, hr, hkr⟩)
      show (db.papers ++ [paper_row_of pid p]).filter _ = _
      rw [List.filter_append, hfilt]
      simp [paper_row_of]

/-- The author upsert touches only the authors table and its sequence. -/
theorem upsert_author_frame (db : DB) (n : String) :
    (upsert_author db n).1.papers = db.papers ∧
    (upsert_author db n).1.categories_meta = db.categories_meta ∧
    (upsert_author db n).1.paper_authors = db.paper_authors ∧
    (upsert_author db n).1.paper_categories = db.paper_categories := by
  unfold upsert_author
  cases hf : db.authors.find? (fun a => a.name == n) <;> exact ⟨rfl, rfl, rfl, rfl⟩

/-- The author upsert preserves unique names, unique ids, and the sequence
bound. -/
theorem upsert_author_wf (db : DB) (n : String)
    (h1 : (db.authors.map AuthorRow.name).Nodup)
    (h2 : (db.authors.map AuthorRow.author_id).Nodup)
    (h3 : ∀ a ∈ db.authors, a.author_id < db.next_author_id) :
    ((upsert_author db n).1.authors.map AuthorRow.name).Nodup ∧
    ((upsert_author db n).1.authors.map AuthorRow.author_id).Nodup ∧
    (∀ a ∈ (upsert_author db n).1.authors,
      a.author_id < (upsert_author db n).1.next_author_id) := by
  unfold upsert_author
  cases hf : db.authors.find? (fun a => a.name == n) with
  | some a => exact ⟨h1, h2, h3⟩
  | none =>
      have hall := List.find?_eq_none.mp hf
      have hnot : n ∉ db.authors.map AuthorRow.name := by
        intro hmem
        obtain ⟨r, hr, hname⟩ := List.mem_map.mp hmem
        exact hall r hr (beq_iff_eq.mpr hname)
      have hidnot : db.next_author_id ∉ db.authors.map AuthorRow.author_id := by
        intro hmem
        obtain ⟨r, hr, hid⟩ := List.mem_map.mp hmem
        have := h3 r hr
        omega
      refine ⟨?_, ?_, ?_⟩
      · show ((db.authors ++ [(⟨db.next_author_id, n⟩ : AuthorRow)]).map AuthorRow.name).Nodup
        rw [List.map_append]
        simp [List.nodup_append, h1, hnot]
      · show ((db.authors ++ [(⟨db.next_author_id, n⟩ : AuthorRow)]).map AuthorRow.author_id).Nodup
        rw [List.map_append]
        simp [List.nodup_append, h2, hidnot]
      · show ∀ a ∈ db.authors ++ [(⟨db.next_author_id, n⟩ : AuthorRow)],
          a.author_id < db.next_author_id + 1
        intro a ha
        rcases List.mem_append.mp ha with hmem | hmem
        · have := h3 a hmem; omega
        · rcases List.mem_singleton.mp hmem with rfl
          show db.next_author_id < db.next_author_id + 1
          omega

/-- The name lookup after the author upsert yields exactly the returned id. -/
theorem upsert_author_find_self (db : DB) (n : String) :
    (upsert_author db n).1.authors.find? (fun a => a.name == n) =
      some ⟨(upsert_author db n).2, n⟩ := by
  unfold upsert_author
  cases hf : db.authors.find? (fun a => a.name == n) with
  | some a =>
      have hpa := List.find?_some hf
      have ha : a = ⟨a.author_id, n⟩ := by
        cases a with
        | mk i nm =>
            simp only [AuthorRow.mk.injEq, true_and]
            exact beq_iff_eq.mp hpa
      show db.authors.find? (fun a => a.name == n) = some (⟨a.author_id, n⟩ : AuthorRow)
      rw [hf, ← ha]
  | none =>
      show (db.authors ++ [(⟨db.next_author_id, n⟩ : AuthorRow)]).find? (fun a => a.name == n) = _
      rw [List.find?_append, hf]
      simp

/-- Existing name lookups survive the author upsert unchanged. -/
theorem upsert_author_find_mono (db : DB) (n m : String) (s : AuthorRow)
    (h : db.authors.find? (fun a => a.name == m) = some s) :
    (upsert_author db n).1.authors.find? (fun a => a.name == m) = some s := by
  unfold upsert_author
  cases hf : db.authors.find? (fun a => a.name == n) with
  | some a => exact h
  | none =>
      show (db.authors ++ [(⟨db.next_author_id, n⟩ : AuthorRow)]).find? (fun a => a.name == m) = some s
      rw [List.find?_append, h]
      rfl

/-- The author loop of insert_paper_data: it touches only the authors
table and its sequence, preserves the author invariants and every
existing name lookup, and yields one (paper, author, ordinal) row per
name, in order, whose ordinal is the 1-based position (offset by the
enumeration start) and whose author id is the final table's id for that
name; distinct names receive distinct ids. -/
theorem collect_authors_spec (pid : String) :
    ∀ (names : List String) (db : DB) (i : Nat),
      (db.authors.map AuthorRow.name).Nodup →
      (db.authors.map AuthorRow.author_id).Nodup →
      (∀ a ∈ db.authors, a.author_id < db.next_author_id) →
      ((collect_authors pid db names i).1.papers = db.papers ∧
       (collect_authors pid db names i).1.categories_meta = db.categories_meta ∧
       (collect_authors pid db names i).1.paper_authors = db.paper_authors ∧
       (collect_authors pid db names i).1.paper_categories = db.paper_categories) ∧
      (((collect_authors pid db names i).1.authors.map AuthorRow.name).Nodup ∧
       ((collect_authors pid db names i).1.authors.map AuthorRow.author_id).Nodup ∧
       (∀ a ∈ (collect_authors pid db names i).1.authors,
          a.author_id < (collect_authors pid db names i).1.next_author_id)) ∧
      (∀ m s, db.authors.find? (fun a => a.name == m) = some s →
        (collect_authors pid db names i).1.authors.find? (fun a => a.name == m) = some s) ∧
      (collect_authors pid db names i).2.length = names.length ∧
      (∀ row ∈ (collect_authors pid db names i).2, row.paper_id = pid) ∧
      (∀ j (hj : j < names.length) (hj2 : j < (collect_authors pid db names i).2.length),
        ((collect_authors pid db names i).2.get ⟨j, hj2⟩).author_order = i + j + 1 ∧
        (collect_authors pid db names i).1.authors.find?
            (fun a => a.name == names.get ⟨j, hj⟩) =
          some ⟨((collect_authors pid db names i).2.get ⟨j, hj2⟩).author_id,
                names.get ⟨j, hj⟩⟩) ∧
      (names.Nodup → ((collect_authors pid db names i).2.map PaperAuthorRow.author_id).Nodup) := by
  intro names
  induction names with
  | nil =>
      intro db i h1 h2 h3
      refine ⟨⟨rfl, rfl, rfl, rfl⟩, ⟨h1, h2, h3⟩, ?_, rfl, ?_, ?_, ?_⟩
      · intro m s h; exact h
      · intro row hrow; cases hrow
      · intro j hj _; exact absurd hj (by simp)
      · intro _; exact List.nodup_nil
  | cons n rest ih =>
      intro db i h1 h2 h3
      have hfr := upsert_author_frame db n
      obtain ⟨w1, w2, w3⟩ := upsert_author_wf db n h1 h2 h3
      obtain ⟨IH1, IH2, IH3, IH4, IH5, IH6, IH7⟩ := ih (upsert_author db n).1 (i + 1) w1 w2 w3
      have hunf : collect_authors pid db (n :: rest) i =
          ((collect_authors pid (upsert_author db n).1 rest (i + 1)).1,
           ⟨pid, (upsert_author db n).2, i + 1⟩ ::
             (collect_authors pid (upsert_author db n).1 rest (i + 1)).2) := rfl
      rw [hunf]
      have hfind_n : (collect_authors pid (upsert_author db n).1 rest (i + 1)).1.authors.find?
          (fun a => a.name == n) = some ⟨(upsert_author db n).2, n⟩ :=
        IH3 n ⟨(upsert_author db n).2, n⟩ (upsert_author_find_self db n)
      refine ⟨⟨IH1.1.trans hfr.1, IH1.2.1.trans hfr.2.1, IH1.2.2.1.trans hfr.2.2.1,
        IH1.2.2.2.trans hfr.2.2.2⟩, IH2, ?_, ?_, ?_, ?_, ?_⟩
      · intro m s h
        exact IH3 m s (upsert_author_find_mono db n m s h)
      · show (collect_authors pid (upsert_author db n).1 rest (i + 1)).2.length + 1 = rest.length + 1
        rw [IH4]
      · intro row hrow
        rcases List.mem_cons.mp hrow with hrow | hrow
        · rw [hrow]
        · exact IH5 row hrow
      · intro j hj hj2
        cases j with
        | zero => exact ⟨rfl, hfind_n⟩
        | succ j =>
            have hj3 : j < rest.length := Nat.lt_of_succ_lt_succ hj
            have hj4 : j < (collect_authors pid (upsert_author db n).1 rest (i + 1)).2.length :=
              Nat.lt_of_succ_lt_succ hj2
            have hidx := IH6 j hj3 hj4
            refine ⟨?_, hidx.2⟩
            show ((collect_authors pid (upsert_author db n).1 rest (i + 1)).2.get
              ⟨j, hj4⟩).author_order = i + (j + 1) + 1
            rw [hidx.1]
            omega
      · intro hnd
        rw [List.nodup_cons] at hnd
        obtain ⟨hn_notin, hnd_rest⟩ := hnd
        show ((upsert_author db n).2 ::
          (collect_authors pid (upsert_author db n).1 rest (i + 1)).2.map
            PaperAuthorRow.author_id).Nodup
        rw [List.nodup_cons]
        refine ⟨?_, IH7 hnd_rest⟩
        intro hmem
        obtain ⟨row2, hrow2, hid2⟩ := List.mem_map.mp hmem
        obtain ⟨⟨j, hj2⟩, hget⟩ := List.mem_iff_get.mp hrow2
        have hj : j < rest.length := by rw [← IH4]; exact hj2
        have hidx := IH6 j hj hj2
        have hfind_j : (collect_authors pid (upsert_author db n).1 rest (i + 1)).1.authors.find?
            (fun a => a.name == rest.get ⟨j, hj⟩) =
            some ⟨(upsert_author db n).2, rest.get ⟨j, hj⟩⟩ := by
          rw [hidx.2, hget, hid2]
        have hm1 : (⟨(upsert_author db n).2, n⟩ : AuthorRow) ∈
            (collect_authors pid (upsert_author db n).1 rest (i + 1)).1.authors :=
          List.mem_of_find?_eq_some hfind_n
        have hm2 : (⟨(upsert_author db n).2, rest.get ⟨j, hj⟩⟩ : AuthorRow) ∈
            (collect_authors pid (upsert_author db n).1 rest (i + 1)).1.authors :=
          List.mem_of_find?_eq_some hfind_j
        have heq := List.inj_on_of_nodup_map IH2.2.1 hm1 hm2 rfl
        have hname : n = rest.get ⟨j, hj⟩ := congrArg AuthorRow.name heq
        exact hn_notin (hname ▸ List.get_mem rest j hj)

/-- The paper_authors upsert touches only the paper_authors table. -/
theorem upsert_paper_author_frame (db : DB) (row : PaperAuthorRow) :
    (upsert_paper_author db row).papers = db.papers ∧
    (upsert_paper_author db row).authors = db.authors ∧
    (upsert_paper_author db row).categories_meta = db.categories_meta ∧
    (upsert_paper_author db row).paper_categories = db.paper_categories ∧
    (upsert_paper_author db row).next_author_id = db.next_author_id := by
  unfold upsert_paper_author
  split <;> exact ⟨rfl, rfl, rfl, rfl, rfl⟩

/-- After the paper_authors upsert, the row's key stores exactly the new
ordinal. -/
theorem upsert_paper_author_lookup_self (db : DB) (row : PaperAuthorRow) :
    pa_lookup (upsert_paper_author db row) row.paper_id row.author_id =
      some row.author_order := by
  unfold pa_lookup upsert_paper_author
  split
  · next hany =>
      show ((db.paper_authors.map
          (fun r => if pa_key r == pa_key row then
            { r with author_order := row.author_order } else r)).find?
        (fun r => pa_key r == pa_key row)).map PaperAuthorRow.author_order =
        some row.author_order
      rw [find_map_update_self pa_key (pa_key row)
        (fun r => { r with author_order := row.author_order }) (fun r => rfl) db.paper_authors]
      obtain ⟨r0, hr0, hpr0⟩ := List.any_eq_true.mp hany
      have hfind : (db.paper_authors.find? (fun r => pa_key r == pa_key row)).isSome := by
        rw [List.find?_isSome]
        exact ⟨r0, hr0, hpr0⟩
      obtain ⟨r1, hr1⟩ := Option.isSome_iff_exists.mp hfind
      rw [hr1]
      rfl
  · next hany =>
      have hnone : db.paper_authors.find? (fun r => pa_key r == pa_key row) = none := by
        rw [List.find?_eq_none]
        intro x hx hpx
        exact hany (List.any_eq_true.mpr ⟨x, hx, hpx⟩)
      show (((db.paper_authors ++ [row]).find?
        (fun r => pa_key r == pa_key row)).map PaperAuthorRow.author_order) = some row.author_order
      rw [List.find?_append, hnone]
      simp

/-- The paper_authors upsert leaves every other key's ordinal unchanged. -/
theorem upsert_paper_author_lookup_other (db : DB) (row : PaperAuthorRow)
    (pid : String) (aid : Nat) (hne : (pid, aid) ≠ pa_key row) :
    pa_lookup (upsert_paper_author db row) pid aid = pa_lookup db pid aid := by
  unfold pa_lookup upsert_paper_author
  split
  · next hany =>
      show ((db.paper_authors.map
          (fun r => if pa_key r == pa_key row then
            { r with author_order := row.author_order } else r)).find?
        (fun r => pa_key r == (pid, aid))).map PaperAuthorRow.author_order = _
      rw [find_map_update_other pa_key (pa_key row) (pid, aid) hne
        (fun r => { r with author_order := row.author_order }) (fun r => rfl) db.paper_authors]
  · next hany =>
      show (((db.paper_authors ++ [row]).find?
        (fun r => pa_key r == (pid, aid))).map PaperAuthorRow.author_order) = _
      rw [List.find?_append]
      have hrow : ([row].find? (fun r => pa_key r == (pid, aid))) = none := by
        have : (pa_key row == (pid, aid)) = false := by
          rw [beq_eq_false_iff_ne]
          exact fun hh => hne hh.symm
        simp [List.find?_cons, this]
      rw [hrow]
      cases db.paper_authors.find? (fun r => pa_key r == (pid, aid)) <;> rfl

/-- The paper_authors upsert keeps the composite keys unique. -/
theorem upsert_paper_author_nodup (db : DB) (row : PaperAuthorRow)
    (h : (db.paper_authors.map pa_key).Nodup) :
    ((upsert_paper_author db row).paper_authors.map pa_key).Nodup := by
  unfold upsert_paper_author
  split
  · next hany =>
      have heq := keys_map_update pa_key
        (fun r => if pa_key r == pa_key row then
          { r with author_order := row.author_order } else r) db.paper_authors
        (by intro a _
            show pa_key (if (pa_key a == pa_key row) = true then
              { a with author_order := row.author_order } else a) = pa_key a
            split <;> rfl)
      show ((db.paper_authors.map _).map pa_key).Nodup
      rw [heq]
      exact h
  · next hany =>
      have hnot : pa_key row ∉ db.paper_authors.map pa_key := by
        intro hmem
        obtain ⟨r, hr, hkr⟩ := List.mem_map.mp hmem
        exact hany (List.any_eq_true.mpr ⟨r, hr, beq_iff_eq.mpr hkr⟩)
      show ((db.paper_authors ++ [row]).map pa_key).Nodup
      rw [List.map_append]
      simp [List.nodup_append, h, hnot]

/-- The execute_values flush touches only the paper_authors table. -/
theorem fold_upsert_pa_frame (rows : List PaperAuthorRow) :
    ∀ db : DB,
      (rows.foldl upsert_paper_author db).papers = db.papers ∧
      (rows.foldl upsert_paper_author db).authors = db.authors ∧
      (rows.foldl upsert_paper_author db).categories_meta = db.categories_meta ∧
      (rows.foldl upsert_paper_author db).paper_categories = db.paper_categories ∧
      (rows.foldl upsert_paper_author db).next_author_id = db.next_author_id := by
  induction rows with
  | nil => intro db; exact ⟨rfl, rfl, rfl, rfl, rfl⟩
  | cons row rest ihr =>
      intro db
      have h1 := ihr (upsert_paper_author db row)
      have h2 := upsert_paper_author_frame db row
      exact ⟨h1.1.trans h2.1, h1.2.1.trans h2.2.1, h1.2.2.1.trans h2.2.2.1,
        h1.2.2.2.1.trans h2.2.2.2.1, h1.2.2.2.2.trans h2.2.2.2.2⟩

/-- The flush keeps the composite keys unique. -/
theorem fold_upsert_pa_nodup (rows : List PaperAuthorRow) :
    ∀ db : DB, (db.paper_authors.map pa_key).Nodup →
      ((rows.foldl upsert_paper_author db).paper_authors.map pa_key).Nodup := by
  induction rows with
  | nil => intro db h; exact h
  | cons row rest ihr =>
      intro db h
      exact ihr (upsert_paper_author db row) (upsert_paper_author_nodup db row h)

/-- Keys not flushed keep their stored ordinal across the flush. -/
theorem fold_upsert_pa_lookup_other (rows : List PaperAuthorRow) :
    ∀ (db : DB) (pid : String) (aid : Nat),
      (∀ r ∈ rows, (pid, aid) ≠ pa_key r) →
      pa_lookup (rows.foldl upsert_paper_author db) pid aid = pa_lookup db pid aid := by
  induction rows with
  | nil => intro db pid aid _; rfl
  | cons row rest ihr =>
      intro db pid aid hne
      show pa_lookup (rest.foldl upsert_paper_author (upsert_paper_author db row)) pid aid = _
      rw [ihr _ pid aid (fun r hr => hne r (List.mem_cons_of_mem row hr)),
        upsert_paper_author_lookup_other db row pid aid (hne row (List.mem_cons_self row rest))]

/-- After flushing rows with pairwise distinct keys, every flushed row's
key stores exactly its flushed ordinal. -/
theorem fold_upsert_pa_lookup (rows : List PaperAuthorRow) :
    ∀ db : DB, (rows.map pa_key).Nodup →
      ∀ r ∈ rows, pa_lookup (rows.foldl upsert_paper_author db) r.paper_id r.author_id =
        some r.author_order := by
  induction rows with
  | nil => intro db _ r hr; cases hr
  | cons row rest ihr =>
      intro db hnd r hr
      rw [List.map_cons, List.nodup_cons] at hnd
      obtain ⟨hknot, hndr⟩ := hnd
      rcases List.mem_cons.mp hr with rfl | hmem
      · show pa_lookup (rest.foldl upsert_paper_author (upsert_paper_author db r))
          r.paper_id r.author_id = some r.author_order
        rw [fold_upsert_pa_lookup_other rest _ r.paper_id r.author_id ?_]
        · exact upsert_paper_author_lookup_self db r
        · intro r2 hr2 heq
          have : pa_key r = pa_key r2 := heq
          exact hknot (this ▸ List.mem_map_of_mem pa_key hr2)
      · exact ihr (upsert_paper_author db row) hndr r hmem

/-- Rows for one paper with pairwise distinct author ids have pairwise
distinct composite keys. -/
theorem pa_keys_nodup_of_aids (rows : List PaperAuthorRow) (pid : String)
    (hpid : ∀ r ∈ rows, r.paper_id = pid)
    (hnd : (rows.map PaperAuthorRow.author_id).Nodup) :
    (rows.map pa_key).Nodup := by
  have heq : rows.map pa_key =
      (rows.map PaperAuthorRow.author_id).map (fun a => (pid, a)) := by
    rw [List.map_map]
    exact List.map_congr_left (by intro r hr; simp [pa_key, hpid r hr])
  rw [heq]
  exact hnd.map (fun a b h => (Prod.ext_iff.mp h).2)

/-- Step 3 of insert_paper_data: only the authors and paper_authors tables
change; the author invariants and composite-key uniqueness are preserved;
and for pairwise distinct names, every name's stored ordinal for this
paper afterwards is its 1-based position in the list. -/
theorem insert_authors_spec (db : DB) (pid : String) (names : List String)
    (h1 : (db.authors.map AuthorRow.name).Nodup)
    (h2 : (db.authors.map AuthorRow.author_id).Nodup)
    (h3 : ∀ a ∈ db.authors, a.author_id < db.next_author_id)
    (hpa : (db.paper_authors.map pa_key).Nodup) :
    (insert_authors db pid names).papers = db.papers ∧
    (insert_authors db pid names).categories_meta = db.categories_meta ∧
    (insert_authors db pid names).paper_categories = db.paper_categories ∧
    ((insert_authors db pid names).authors.map AuthorRow.name).Nodup ∧
    ((insert_authors db pid names).authors.map AuthorRow.author_id).Nodup ∧
    (∀ a ∈ (insert_authors db pid names).authors,
        a.author_id < (insert_authors db pid names).next_author_id) ∧
    ((insert_authors db pid names).paper_authors.map pa_key).Nodup ∧
    (names.Nodup → ∀ j (hj : j < names.length),
        ordinal_of (insert_authors db pid names) pid (names.get ⟨j, hj⟩) = some (j + 1)) := by
  obtain ⟨CA1, CA2, CA3, CA4, CA5, CA6, CA7⟩ := collect_authors_spec pid names db 0 h1 h2 h3
  have hunf : insert_authors db pid names =
      (collect_authors pid db names 0).2.foldl upsert_paper_author
        (collect_authors pid db names 0).1 := rfl
  have FF := fold_upsert_pa_frame (collect_authors pid db names 0).2
    (collect_authors pid db names 0).1
  rw [hunf]
  refine ⟨FF.1.trans CA1.1, FF.2.2.1.trans CA1.2.1, FF.2.2.2.1.trans CA1.2.2.2,
    ?_, ?_, ?_, ?_, ?_⟩
  · rw [FF.2.1]; exact CA2.1
  · rw [FF.2.1]; exact CA2.2.1
  · rw [FF.2.1, FF.2.2.2.2]; exact CA2.2.2
  · refine fold_upsert_pa_nodup _ _ ?_
    rw [CA1.2.2.1]
    exact hpa
  · intro hnd j hj
    have hj2 : j < (collect_authors pid db names 0).2.length := by rw [CA4]; exact hj
    have hidx := CA6 j hj hj2
    have hmem := List.get_mem (collect_authors pid db names 0).2 j hj2
    have hkeys := pa_keys_nodup_of_aids (collect_authors pid db names 0).2 pid CA5 (CA7 hnd)
    have hord : ordinal_of ((collect_authors pid db names 0).2.foldl upsert_paper_author
        (collect_authors pid db names 0).1) pid (names.get ⟨j, hj⟩) =
        pa_lookup ((collect_authors pid db names 0).2.foldl upsert_paper_author
          (collect_authors pid db names 0).1) pid
          (((collect_authors pid db names 0).2.get ⟨j, hj2⟩).author_id) := by
      unfold ordinal_of
      rw [FF.2.1, hidx.2]
    rw [hord]
    have hlk := fold_upsert_pa_lookup (collect_authors pid db names 0).2
      (collect_authors pid db names 0).1 hkeys
      ((collect_authors pid db names 0).2.get ⟨j, hj2⟩) hmem
    rw [CA5 ((collect_authors pid db names 0).2.get ⟨j, hj2⟩) hmem] at hlk
    rw [hlk]
    have : ((collect_authors pid db names 0).2.get ⟨j, hj2⟩).author_order = j + 1 := by
      rw [hidx.1]
      omega
    rw [this]

/-- insert_paper_category touches only the paper_categories table. -/
theorem insert_paper_category_frame (db : DB) (pid code : String) :
    (insert_paper_category db pid code).papers = db.papers ∧
    (insert_paper_category db pid code).authors = db.authors ∧
    (insert_paper_category db pid code).categories_meta = db.categories_meta ∧
    (insert_paper_category db pid code).paper_authors = db.paper_authors ∧
    (insert_paper_category db pid code).next_author_id = db.next_author_id := by
  unfold insert_paper_category
  split <;> exact ⟨rfl, rfl, rfl, rfl, rfl⟩

/-- insert_paper_category keeps the composite keys unique. -/
theorem insert_paper_category_nodup (db : DB) (pid code : String)
    (h : (db.paper_categories.map (fun r => (r.paper_id, r.category_code))).Nodup) :
    ((insert_paper_category db pid code).paper_categories.map
      (fun r => (r.paper_id, r.category_code))).Nodup := by
  unfold insert_paper_category
  split
  · exact h
  · next hany =>
      have hnot : (pid, code) ∉
          db.paper_categories.map (fun r => (r.paper_id, r.category_code)) := by
        intro hmem
        obtain ⟨r, hr, hkr⟩ := List.mem_map.mp hmem
        refine hany (List.any_eq_true.mpr ⟨r, hr, ?_⟩)
        rw [Bool.and_eq_true, beq_iff_eq, beq_iff_eq]
        exact ⟨congrArg Prod.fst hkr, congrArg Prod.snd hkr⟩
      show ((db.paper_categories ++ [(⟨pid, code⟩ : PaperCategoryRow)]).map
        (fun r => (r.paper_id, r.category_code))).Nodup
      rw [List.map_append]
      simp [List.nodup_append, h, hnot]

/-- The categories_meta fold of step 4 touches only categories_meta. -/
theorem fold_icm_frame (codes : List String) :
    ∀ db : DB,
      (codes.foldl (fun d c => insert_category_meta d c (category_desc c)) db).papers = db.papers ∧
      (codes.foldl (fun d c => insert_category_meta d c (category_desc c)) db).authors = db.authors ∧
      (codes.foldl (fun d c => insert_category_meta d c (category_desc c)) db).paper_authors =
        db.paper_authors ∧
      (codes.foldl (fun d c => insert_category_meta d c (category_desc c)) db).paper_categories =
        db.paper_categories ∧
      (codes.foldl (fun d c => insert_category_meta d c (category_desc c)) db).next_author_id =
        db.next_author_id := by
  induction codes with
  | nil => intro db; exact ⟨rfl, rfl, rfl, rfl, rfl⟩
  | cons c rest ihc =>
      intro db
      have h1 := ihc (insert_category_meta db c (category_desc c))
      have h2 := insert_category_meta_frame db c (category_desc c)
      exact ⟨h1.1.trans h2.1, h1.2.1.trans h2.2.1, h1.2.2.1.trans h2.2.2.1,
        h1.2.2.2.1.trans h2.2.2.2.1, h1.2.2.2.2.trans h2.2.2.2.2⟩

/-- The paper_categories fold of step 4: frames and key uniqueness. -/
theorem fold_ipc_spec (codes : List String) (pid : String) :
    ∀ db : DB,
      ((codes.foldl (fun d c => insert_paper_category d pid c) db).papers = db.papers ∧
       (codes.foldl (fun d c => insert_paper_category d pid c) db).authors = db.authors ∧
       (codes.foldl (fun d c => insert_paper_category d pid c) db).categories_meta =
         db.categories_meta ∧
       (codes.foldl (fun d c => insert_paper_category d pid c) db).paper_authors =
         db.paper_authors ∧
       (codes.foldl (fun d c => insert_paper_category d pid c) db).next_author_id =
         db.next_author_id) ∧
      ((db.paper_categories.map (fun r => (r.paper_id, r.category_code))).Nodup →
        ((codes.foldl (fun d c => insert_paper_category d pid c) db).paper_categories.map
          (fun r => (r.paper_id, r.category_code))).Nodup) := by
  induction codes with
  | nil => intro db; exact ⟨⟨rfl, rfl, rfl, rfl, rfl⟩, fun h => h⟩
  | cons c rest ihc =>
      intro db
      have h1 := ihc (insert_paper_category db pid c)
      have h2 := insert_paper_category_frame db pid c
      refine ⟨⟨h1.1.1.trans h2.1, h1.1.2.1.trans h2.2.1, h1.1.2.2.1.trans h2.2.2.1,
        h1.1.2.2.2.1.trans h2.2.2.2.1, h1.1.2.2.2.2.trans h2.2.2.2.2⟩, ?_⟩
      intro h
      exact h1.2 (insert_paper_category_nodup db pid c h)

/-- Step 4 of insert_paper_data: only categories_meta and paper_categories
change, and paper_categories keys stay unique. -/
theorem insert_categories_spec (db : DB) (pid : String) (codes : List String) :
    ((insert_categories db pid codes).papers = db.papers ∧
     (insert_categories db pid codes).authors = db.authors ∧
     (insert_categories db pid codes).paper_authors = db.paper_authors ∧
     (insert_categories db pid codes).next_author_id = db.next_author_id) ∧
    ((db.paper_categories.map (fun r => (r.paper_id, r.category_code))).Nodup →
      ((insert_categories db pid codes).paper_categories.map
        (fun r => (r.paper_id, r.category_code))).Nodup) := by
  have hunf : insert_categories db pid codes =
      (codes.filter (fun c => c != "")).foldl (fun d c => insert_paper_category d pid c)
        ((codes.filter (fun c => c != "")).foldl
          (fun d c => insert_category_meta d c (category_desc c)) db) := rfl
  rw [hunf]
  have hm := fold_icm_frame (codes.filter (fun c => c != "")) db
  have hp := fold_ipc_spec (codes.filter (fun c => c != "")) pid
    ((codes.filter (fun c => c != "")).foldl
      (fun d c => insert_category_meta d c (category_desc c)) db)
  refine ⟨⟨hp.1.1.trans hm.1, hp.1.2.1.trans hm.2.1, hp.1.2.2.2.1.trans hm.2.2.1,
    hp.1.2.2.2.2.trans hm.2.2.2.2⟩, ?_⟩
  intro h
  refine hp.2 ?_
  rw [hm.2.2.2.1]
  exact h

/-- The papers component of the paper upsert depends only on the papers
table of its input store. -/
theorem upsert_paper_papers_congr (db1 db2 : DB) (pid : String) (p : PaperResult)
    (h : db1.papers = db2.papers) :
    (upsert_paper db1 pid p).papers = (upsert_paper db2 pid p).papers := by
  unfold upsert_paper
  rw [h]
  split <;> rfl

/-- The ordinal lookup depends only on the authors and paper_authors
tables. -/
theorem ordinal_of_congr (a b : DB) (pid name : String)
    (h1 : a.authors = b.authors) (h2 : a.paper_authors = b.paper_authors) :
    ordinal_of a pid name = ordinal_of b pid name := by
  unfold ordinal_of pa_lookup
  rw [h1, h2]

/-- One apply of insert_paper_data: it preserves all store invariants, its
final papers table is that of the paper upsert on the incoming store, and
for a record with pairwise distinct author names every author's stored
ordinal afterwards is its 1-based position in the record. -/
theorem insert_paper_data_spec (db : DB) (p : PaperResult) (h : db.WF) :
    (insert_paper_data db p).WF ∧
    (insert_paper_data db p).papers = (upsert_paper db (paper_id_of p) p).papers ∧
    (p.authors.Nodup → ∀ j (hj : j < p.authors.length),
      ordinal_of (insert_paper_data db p) (paper_id_of p) (p.authors.get ⟨j, hj⟩) =
        some (j + 1)) := by
  obtain ⟨w1, w2, w3, w4, w5, w6⟩ := h
  have F1 := insert_primary_category_frame db p
  have F2 := upsert_paper_frame (insert_primary_category db p) (paper_id_of p) p
  have h2name : ((upsert_paper (insert_primary_category db p) (paper_id_of p) p).authors.map
      AuthorRow.name).Nodup := by
    rw [F2.1, F1.2.1]; exact w2
  have h2id : ((upsert_paper (insert_primary_category db p) (paper_id_of p) p).authors.map
      AuthorRow.author_id).Nodup := by
    rw [F2.1, F1.2.1]; exact w3
  have h2bound : ∀ a ∈ (upsert_paper (insert_primary_category db p) (paper_id_of p) p).authors,
      a.author_id <
        (upsert_paper (insert_primary_category db p) (paper_id_of p) p).next_author_id := by
    rw [F2.1, F1.2.1, F2.2.2.2.2, F1.2.2.2.2]; exact w4
  have h2pa : ((upsert_paper (insert_primary_category db p) (paper_id_of p) p).paper_authors.map
      pa_key).Nodup := by
    rw [F2.2.2.1, F1.2.2.1]; exact w5
  have IAS := insert_authors_spec
    (upsert_paper (insert_primary_category db p) (paper_id_of p) p) (paper_id_of p) p.authors
    h2name h2id h2bound h2pa
  have ICS := insert_categories_spec
    (insert_authors (upsert_paper (insert_primary_category db p) (paper_id_of p) p)
      (paper_id_of p) p.authors) (paper_id_of p) p.categories
  have hunf : insert_paper_data db p =
      insert_categories
        (insert_authors (upsert_paper (insert_primary_category db p) (paper_id_of p) p)
          (paper_id_of p) p.authors)
        (paper_id_of p) p.categories := rfl
  have hpap : (insert_paper_data db p).papers = (upsert_paper db (paper_id_of p) p).papers := by
    rw [hunf, ICS.1.1, IAS.1]
    exact upsert_paper_papers_congr _ db (paper_id_of p) p F1.1
  refine ⟨⟨?_, ?_, ?_, ?_, ?_, ?_⟩, hpap, ?_⟩
  · rw [hpap]
    exact upsert_paper_nodup db (paper_id_of p) p w1
  · rw [hunf, ICS.1.2.1]
    exact IAS.2.2.2.1
  · rw [hunf, ICS.1.2.1]
    exact IAS.2.2.2.2.1
  · rw [hunf, ICS.1.2.1, ICS.1.2.2.2]
    exact IAS.2.2.2.2.2.1
  · rw [hunf, ICS.1.2.2.1]
    exact IAS.2.2.2.2.2.2.1
  · rw [hunf]
    refine ICS.2 ?_
    rw [IAS.2.2.1, F2.2.2.2.1, F1.2.2.2.1]
    exact w6
  · intro hnd j hj
    rw [hunf, ordinal_of_congr _ _ (paper_id_of p) (p.authors.get ⟨j, hj⟩)
      ICS.1.2.1 ICS.1.2.2.1]
    exact IAS.2.2.2.2.2.2.2 hnd j hj

/-- ON CONFLICT DO NOTHING flushes whose keys are all already present
change nothing at all. -/
theorem flush_ignore_noop :
    ∀ (rows : List PaperAuthorRow) (db : DB),
      (∀ r ∈ rows, ∃ s ∈ db.paper_authors, pa_key s = pa_key r) →
      import_flush_paper_authors db rows = db := by
  intro rows
  induction rows with
  | nil => intro db _; rfl
  | cons row rest ihr =>
      intro db hall
      have hstep : insert_paper_author_ignore db row = db := by
        unfold insert_paper_author_ignore
        obtain ⟨s, hs, hk⟩ := hall row (List.mem_cons_self row rest)
        have hb : (pa_key s == pa_key row) = true := beq_iff_eq.mpr hk
        have hany : (db.paper_authors.any fun r => pa_key r == pa_key row) = true :=
          List.any_eq_true.mpr ⟨s, hs, hb⟩
        rw [if_pos hany]
      show import_flush_paper_authors (insert_paper_author_ignore db row) rest = db
      rw [hstep]
      exact ihr db (fun r hr => hall r (List.mem_cons_of_mem row hr))

/-- With pairwise distinct author names the flush's duplicate-key error
cannot arise (distinct names reach distinct author ids), so the checked
apply succeeds and coincides with the success path. -/
theorem insert_paper_data_checked_eq (db : DB) (p : PaperResult) (h : db.WF)
    (hnd : p.authors.Nodup) :
    insert_paper_data_checked db p = (insert_paper_data db p, true) := by
  obtain ⟨w1, w2, w3, w4, w5, w6⟩ := h
  have F1 := insert_primary_category_frame db p
  have F2 := upsert_paper_frame (insert_primary_category db p) (paper_id_of p) p
  have h2name : ((upsert_paper (insert_primary_category db p) (paper_id_of p) p).authors.map
      AuthorRow.name).Nodup := by
    rw [F2.1, F1.2.1]; exact w2
  have h2id : ((upsert_paper (insert_primary_category db p) (paper_id_of p) p).authors.map
      AuthorRow.author_id).Nodup := by
    rw [F2.1, F1.2.1]; exact w3
  have h2bound : ∀ a ∈ (upsert_paper (insert_primary_category db p) (paper_id_of p) p).authors,
      a.author_id <
        (upsert_paper (insert_primary_category db p) (paper_id_of p) p).next_author_id := by
    rw [F2.1, F1.2.1, F2.2.2.2.2, F1.2.2.2.2]; exact w4
  obtain ⟨CA1, CA2, CA3, CA4, CA5, CA6, CA7⟩ := collect_authors_spec (paper_id_of p) p.authors
    (upsert_paper (insert_primary_category db p) (paper_id_of p) p) 0 h2name h2id h2bound
  have hkeys := pa_keys_nodup_of_aids
    (collect_authors (paper_id_of p)
      (upsert_paper (insert_primary_category db p) (paper_id_of p) p) p.authors 0).2
    (paper_id_of p) CA5 (CA7 hnd)
  show (match flush_paper_authors
      (collect_authors (paper_id_of p)
        (upsert_paper (insert_primary_category db p) (paper_id_of p) p) p.authors 0).1
      (collect_authors (paper_id_of p)
        (upsert_paper (insert_primary_category db p) (paper_id_of p) p) p.authors 0).2 with
    | none => (db, false)
    | some db3 => (insert_categories db3 (paper_id_of p) p.categories, true)) =
    (insert_paper_data db p, true)
  unfold flush_paper_authors
  rw [if_pos hkeys]
  exact rfl

/-- C1 counterexample: the record listing author X twice, applied (twice)
to the empty store, never creates its paper row — each apply's flush
raises on the repeated (paper, author) key, the transaction rolls back
and False is returned, so no store state holds exactly one papers row for
its identifier, refuting the claim for arbitrary normalized records. -/
theorem duplicate_author_apply_zero_rows :
    (insert_paper_data_checked DB.empty dup_author_record).2 = false ∧
    (insert_paper_data_checked DB.empty dup_author_record).1 = DB.empty ∧
    (insert_paper_data_checked
        (insert_paper_data_checked DB.empty dup_author_record).1 dup_author_record).1.papers = [] ∧
    ¬∃ r : PaperRow,
      (insert_paper_data_checked
          (insert_paper_data_checked DB.empty dup_author_record).1
          dup_author_record).1.papers.filter
        (fun q => q.id == paper_id_of dup_author_record) = [r] := by
  refine ⟨rfl, rfl, rfl, ?_⟩
  rintro ⟨r, hr⟩
  have hnil : (insert_paper_data_checked
      (insert_paper_data_checked DB.empty dup_author_record).1
      dup_author_record).1.papers.filter
        (fun q => q.id == paper_id_of dup_author_record) = ([] : List PaperRow) := rfl
  rw [hnil] at hr
  cases hr

/-- C1 (amended): applying a normalized record with pairwise distinct
author names twice in succession through the per-record upsert path, on
any store satisfying the schema invariants, succeeds both times and
leaves exactly one papers row carrying the record's identifier, whose
bibliographic columns hold the second apply's values (identical to the
first's, last-write-wins), with no duplicate (paper, author) or
(paper, category) relationship rows; a record repeating an author name
instead makes the multi-row flush raise, rolling the whole apply back
with no effect (see the counterexample). -/
theorem apply_twice_checked_single_paper_row (db : DB) (p : PaperResult) (h : db.WF)
    (hnd : p.authors.Nodup) :
    (insert_paper_data_checked db p).2 = true ∧
    (insert_paper_data_checked (insert_paper_data_checked db p).1 p).2 = true ∧
    (∃ r : PaperRow,
      (insert_paper_data_checked (insert_paper_data_checked db p).1 p).1.papers.filter
        (fun q => q.id == paper_id_of p) = [r] ∧
      r.id = paper_id_of p ∧ r.title = p.title ∧
      r.abstract = replace_char '\n' ' ' p.summary ∧
      r.primary_category_code = p.primary_category ∧ r.pdf_url = p.pdf_url ∧
      r.arxiv_published_at = p.published ∧ r.arxiv_updated_at = p.updated ∧
      r.journal_ref = p.journal_ref ∧ r.doi = p.doi) ∧
    ((insert_paper_data_checked (insert_paper_data_checked db p).1
        p).1.paper_authors.map pa_key).Nodup ∧
    ((insert_paper_data_checked (insert_paper_data_checked db p).1
        p).1.paper_categories.map
      (fun r => (r.paper_id, r.category_code))).Nodup := by
  have h1 := insert_paper_data_spec db p h
  have e1 := insert_paper_data_checked_eq db p h hnd
  have e2 := insert_paper_data_checked_eq (insert_paper_data db p) p h1.1 hnd
  have e1f : (insert_paper_data_checked db p).1 = insert_paper_data db p := by rw [e1]
  have h2 := insert_paper_data_spec (insert_paper_data db p) p h1.1
  obtain ⟨a1, a2, a3, a4, a5, a6⟩ := h2.1
  obtain ⟨b1, _, _, _, _, _⟩ := h1.1
  obtain ⟨r, hfilt, hfields⟩ := upsert_paper_filter (insert_paper_data db p) (paper_id_of p) p b1
  refine ⟨by rw [e1], by rw [e1f, e2], ⟨r, ?_, hfields⟩, ?_, ?_⟩
  · rw [e1f, e2]
    show (insert_paper_data (insert_paper_data db p) p).papers.filter
      (fun q => q.id == paper_id_of p) = [r]
    rw [h2.2.1]
    exact hfilt
  · rw [e1f, e2]
    exact a5
  · rw [e1f, e2]
    exact a6

/-- The empty store satisfies the schema invariants. -/
theorem DB_empty_WF : DB.empty.WF := by
  refine ⟨List.nodup_nil, List.nodup_nil, List.nodup_nil, ?_, List.nodup_nil, List.nodup_nil⟩
  intro a ha
  cases ha

/-- Witness for apply_twice_checked_single_paper_row: the empty store and
the first scenario record, whose two author names are distinct. -/
theorem apply_twice_checked_single_paper_row_witness :
    DB.empty.WF ∧ scenario_record_1.authors.Nodup ∧
    ((insert_paper_data_checked DB.empty scenario_record_1).2 = true ∧
    (insert_paper_data_checked (insert_paper_data_checked DB.empty scenario_record_1).1
      scenario_record_1).2 = true ∧
    (∃ r : PaperRow,
      (insert_paper_data_checked (insert_paper_data_checked DB.empty scenario_record_1).1
          scenario_record_1).1.papers.filter
        (fun q => q.id == paper_id_of scenario_record_1) = [r] ∧
      r.id = paper_id_of scenario_record_1 ∧ r.title = scenario_record_1.title ∧
      r.abstract = replace_char '\n' ' ' scenario_record_1.summary ∧
      r.primary_category_code = scenario_record_1.primary_category ∧
      r.pdf_url = scenario_record_1.pdf_url ∧
      r.arxiv_published_at = scenario_record_1.published ∧
      r.arxiv_updated_at = scenario_record_1.updated ∧
      r.journal_ref = scenario_record_1.journal_ref ∧ r.doi = scenario_record_1.doi) ∧
    ((insert_paper_data_checked (insert_paper_data_checked DB.empty scenario_record_1).1
        scenario_record_1).1.paper_authors.map pa_key).Nodup ∧
    ((insert_paper_data_checked (insert_paper_data_checked DB.empty scenario_record_1).1
        scenario_record_1).1.paper_categories.map
      (fun r => (r.paper_id, r.category_code))).Nodup) :=
  ⟨DB_empty_WF, by decide,
    apply_twice_checked_single_paper_row DB.empty scenario_record_1 DB_empty_WF (by decide)⟩

/-- C4 (amended): re-ingesting a paper with its author list reordered
through the per-record apply path rewrites every (paper, author) ordinal
to the author's new 1-based position without duplicating keys; the
batched import path never does so — its ON CONFLICT DO NOTHING flush
leaves a store whose (paper, author) keys are all present exactly
unchanged, keeping the previously stored ordinals. -/
theorem reingest_reorder_ordinal_semantics (db : DB) (p : PaperResult) (h : db.WF)
    (hnd : p.authors.Nodup) :
    (∀ j (hj : j < p.authors.length),
        ordinal_of (insert_paper_data db p) (paper_id_of p) (p.authors.get ⟨j, hj⟩) =
          some (j + 1)) ∧
    ((insert_paper_data db p).paper_authors.map pa_key).Nodup ∧
    (∀ rows : List PaperAuthorRow,
        (∀ r ∈ rows, ∃ s ∈ db.paper_authors, pa_key s = pa_key r) →
        import_flush_paper_authors db rows = db) := by
  have h1 := insert_paper_data_spec db p h
  obtain ⟨a1, a2, a3, a4, a5, a6⟩ := h1.1
  exact ⟨h1.2.2 hnd, a5, fun rows hrows => flush_ignore_noop rows db hrows⟩

/-- Witness for reingest_reorder_ordinal_semantics: the store already
holding paper 2401.00001 with authors X, Y and the scenario's reordered
second record. -/
theorem reingest_reorder_ordinal_semantics_witness :
    reorder_db.WF ∧ scenario_record_2.authors.Nodup ∧
    ((∀ j (hj : j < scenario_record_2.authors.length),
        ordinal_of (insert_paper_data reorder_db scenario_record_2)
          (paper_id_of scenario_record_2)
          (scenario_record_2.authors.get ⟨j, hj⟩) = some (j + 1)) ∧
    ((insert_paper_data reorder_db scenario_record_2).paper_authors.map pa_key).Nodup ∧
    (∀ rows : List PaperAuthorRow,
        (∀ r ∈ rows, ∃ s ∈ reorder_db.paper_authors, pa_key s = pa_key r) →
        import_flush_paper_authors reorder_db rows = reorder_db)) := by
  have hwf : reorder_db.WF := by
    constructor
    · decide
    constructor
    · decide
    constructor
    · decide
    constructor
    · decide
    constructor
    · decide
    · decide
  have hnd : scenario_record_2.authors.Nodup := by decide
  exact ⟨hwf, hnd, reingest_reorder_ordinal_semantics reorder_db scenario_record_2 hwf hnd⟩
